import Mathlib

/-! # Multi-session chat state manager (`07_chat/main.go`)

A shallow embedding of the chat service's session store, sessions, context
builder and HTTP handlers, followed by the properties proved about them.

Modelling conventions

* `*ChatSession` pointers are indices into a heap of session objects
  (`Server.heap`); allocation appends to the heap, so a fresh pointer is the
  heap's length.  The Go map `map[string]*ChatSession` is an association list
  read by `mapGet`, written by `mapSet` and shrunk by `mapDelete`.
* `time.Now()` is an input: every function that reads the clock takes the
  reading as an argument of type `Time`.
* The mutexes are not modelled: every operation below is the body that runs
  while the lock is held, i.e. the operations are taken in a serialized order.
* The generation service (`genkit.Generate`) is an input function
  `String → Option String`; `none` is the error return.  It is applied to
  the prompt that `ai.WithPrompt` produces from the handler's text, which is
  `fmt.Sprintf` of that text with no operands (`Sprintf0`).  The outcome of
  `c.ShouldBindJSON(&req)` is an input of type `Option ChatRequest`.
* Slices are list values in the session store and the handlers; a later
  part of the definitions gives `AddMessage` and `GetHistory` a second time
  over an explicit memory of backing arrays, to state what is shared and what
  is copied, and the two levels are related by refinement lemmas.
* Concurrent calls of `GetSession` are interleavings of its two critical
  sections (`readSection`, `writeSection`), chosen by a schedule.
* The environment loader of `pkg/env/env.go` works on an explicit process
  environment (`Environ`).
-/

namespace Chat

/-- A clock reading (`time.Time`, or the `int64` of `UnixNano`). -/
abbrev Time := Int

/-- A pointer to a heap-allocated `ChatSession`. -/
abbrev Ptr := Nat

/-- The struct `Message`. -/
structure Message where
  ID : String
  Role : String
  Content : String
  Timestamp : Time
  deriving DecidableEq, Repr, Inhabited

/-- The struct `ChatSession` (without its mutex). -/
structure ChatSession where
  ID : String
  Messages : List Message
  deriving DecidableEq, Repr, Inhabited

/-- Go map read `m[k]` in its comma-ok form. -/
def mapGet : List (String × Ptr) → String → Option Ptr
  | [], _ => none
  | (k', v) :: rest, k => if k' = k then some v else mapGet rest k

/-- Go builtin `delete(m, k)`. -/
def mapDelete (m : List (String × Ptr)) (k : String) : List (String × Ptr) :=
  m.filter (fun e => decide (e.1 ≠ k))

/-- Go map write `m[k] = v`. -/
def mapSet (m : List (String × Ptr)) (k : String) (v : Ptr) : List (String × Ptr) :=
  (k, v) :: mapDelete m k

/-- The struct `ChatManager` (without its mutex). -/
structure ChatManager where
  sessions : List (String × Ptr)
  deriving DecidableEq, Repr

/-- The program state the handlers share: the session objects allocated so
far and the `chatManager` that points into them. -/
structure Server where
  heap : List ChatSession
  chatManager : ChatManager
  deriving DecidableEq, Repr

/-- `NewChatManager`: an empty session map (and nothing allocated yet). -/
def NewChatManager : Server :=
  { heap := [], chatManager := { sessions := [] } }

/-- Dereference of a session pointer. -/
def Server.deref (sv : Server) (p : Ptr) : ChatSession :=
  sv.heap.getD p default

/-- `ChatManager.GetSession`: the read-locked lookup, the write-locked
re-check, then creation and registration of a new empty session. -/
def GetSession (sv : Server) (sessionID : String) : Ptr × Server :=
  match mapGet sv.chatManager.sessions sessionID with
  | some session => (session, sv)
  | none =>
    match mapGet sv.chatManager.sessions sessionID with
    | some session => (session, sv)
    | none =>
      let session : Ptr := sv.heap.length
      (session,
        { heap := sv.heap ++ [{ ID := sessionID, Messages := [] }],
          chatManager := { sessions := mapSet sv.chatManager.sessions sessionID session } })

/-- `fmt.Sprintf("%s_%d", id, n)`. -/
def sprintfID (id : String) (n : Nat) : String :=
  id ++ "_" ++ toString n

/-- `ChatSession.AddMessage` on the session object: the created message and
the session after the append. -/
def ChatSession.AddMessage (cs : ChatSession) (role content : String) (now : Time) :
    Message × ChatSession :=
  let message : Message :=
    { ID := sprintfID cs.ID cs.Messages.length,
      Role := role,
      Content := content,
      Timestamp := now }
  (message, { cs with Messages := cs.Messages ++ [message] })

/-- `ChatSession.GetHistory`: `append([]Message(nil), cs.Messages...)`. -/
def ChatSession.GetHistory (cs : ChatSession) : List Message :=
  ([] : List Message) ++ cs.Messages

/-- `session.AddMessage(role, content)` through a pointer: the object the
pointer designates is replaced by the appended one. -/
def AddMessage (sv : Server) (session : Ptr) (role content : String) (now : Time) :
    Message × Server :=
  let r := (sv.deref session).AddMessage role content now
  (r.1, { sv with heap := sv.heap.set session r.2 })

/-- `session.GetHistory()` through a pointer. -/
def GetHistory (sv : Server) (session : Ptr) : List Message :=
  (sv.deref session).GetHistory

/-- One `AddMessage` call: role, content and the clock reading it sees. -/
abbrev Append := String × String × Time

/-- A serialized run of `AddMessage` calls on one session object. -/
def ChatSession.addAll (cs : ChatSession) : List Append → ChatSession
  | [] => cs
  | a :: rest => ChatSession.addAll (cs.AddMessage a.1 a.2.1 a.2.2).2 rest

/-- A serialized run of `AddMessage` calls through one session pointer. -/
def addAll (sv : Server) (session : Ptr) : List Append → Server
  | [] => sv
  | a :: rest => addAll (AddMessage sv session a.1 a.2.1 a.2.2).2 session rest

/-- The message list a reader obtains for `sessionID`: `GetSession` followed
by `GetHistory`, as the history endpoint does. -/
def historyOf (sv : Server) (sessionID : String) : List Message :=
  let r := GetSession sv sessionID
  GetHistory r.2 r.1

/-- The invariant of reachable server states: every registered pointer
designates an allocated session whose `ID` is the key it is registered
under, and no session object is registered twice. -/
def Server.WF (sv : Server) : Prop :=
  (∀ e ∈ sv.chatManager.sessions, (sv.heap.get? e.2).map ChatSession.ID = some e.1) ∧
  (sv.chatManager.sessions.map Prod.snd).Nodup

instance (sv : Server) : Decidable sv.WF := by
  unfold Server.WF; exact inferInstance

/-- Value of a decimal digit character. -/
def digitVal (c : Char) : Nat := c.toNat - 48

/-- Reads a string of decimal digits back to the number it denotes. -/
def readDecimal (acc : Nat) (ds : List Char) : Nat :=
  ds.foldl (fun a c => a * 10 + digitVal c) acc

/-- A sample reachable store: session `a` holds one message, session `b`
none. -/
def sampleServer : Server :=
  { heap := [{ ID := "a", Messages := [⟨"a_0", "user", "hi", 1⟩] },
             { ID := "b", Messages := [] }],
    chatManager := { sessions := [("b", 1), ("a", 0)] } }

/-- `buildContextFromHistory`: the loop appends one rendered line per user
or assistant message to the header; the trailer is appended after it. -/
def buildContextFromHistory (messages : List Message) : String :=
  if messages.length = 0 then
    ""
  else
    let context := "對話歷史:\n"
    let context := messages.foldl
      (fun context msg =>
        if msg.Role = "user" then
          context ++ ("用戶: " ++ msg.Content ++ "\n")
        else if msg.Role = "assistant" then
          context ++ ("助手: " ++ msg.Content ++ "\n")
        else
          context)
      context
    context ++ "\n請根據以上對話歷史繼續對話："

/-- The line the specification prescribes for one message: a labelled line
for the roles `user` and `assistant`, nothing for any other role. -/
def specLine (msg : Message) : Option String :=
  if msg.Role = "user" then some ("用戶: " ++ msg.Content ++ "\n")
  else if msg.Role = "assistant" then some ("助手: " ++ msg.Content ++ "\n")
  else none

/-- The context builder as the specification words it: the empty string for
no messages; otherwise header, the rendered lines in order, trailer. -/
def specContext : List Message → String
  | [] => ""
  | m :: ms =>
    "對話歷史:\n" ++ ((m :: ms).filterMap specLine).foldr (fun line rest => line ++ rest) "" ++
      "\n請根據以上對話歷史繼續對話："

/-- The struct `ChatRequest`. -/
structure ChatRequest where
  SessionID : String
  Message : String
  deriving DecidableEq, Repr

/-- The struct `ChatResponse`. -/
structure ChatResponse where
  SessionID : String
  Message : Message
  deriving DecidableEq, Repr

/-- The JSON payloads the handlers write. -/
inductive Body where
  | error (error : String)
  | chat (resp : ChatResponse)
  | history (session_id : String) (messages : List Message)
  | message (message : String)
  deriving DecidableEq, Repr

/-- An HTTP response written with `c.JSON(status, body)`. -/
structure Response where
  status : Nat
  body : Body
  deriving DecidableEq, Repr

/-- `http.StatusOK`. -/
def StatusOK : Nat := 200

/-- `http.StatusBadRequest`. -/
def StatusBadRequest : Nat := 400

/-- `http.StatusInternalServerError`. -/
def StatusInternalServerError : Nat := 500

/-- The slice expression `s[:hi]` with a signed bound; `none` is the
run-time panic for a bound out of range. -/
def sliceTo (s : List Message) (hi : Int) : Option (List Message) :=
  if 0 ≤ hi ∧ hi ≤ (s.length : Int) then some (s.take hi.toNat) else none

/-! ### `fmt.Sprintf` without operands

`ai.WithPrompt(text string, args ...any)` takes a format string: the prompt
it hands to the model is `fmt.Sprintf(text, args...)`.  The handler calls it
with the full prompt as `text` and no further arguments, so the text passes
through the formatter of package `fmt` with an empty operand list.  The
definitions below follow `doPrintf` for that case: ordinary text is copied,
and every `%` starts a verb that is read (flags, argument index, width,
precision, argument index, verb character) and then replaced by `%` itself
for `%%` and by an error marker otherwise. -/

/-- `parsenum`: the decimal number at the start of the text, whether there
is one, and the text after it.  When the number read so far exceeds 10^6 and
another digit follows, the scan gives up: no number, and the position moves
to the end of the text. -/
def parsenum : Nat → Bool → List Char → Nat × Bool × List Char
  | num, isnum, [] => (num, isnum, [])
  | num, isnum, c :: cs =>
    if '0' ≤ c ∧ c ≤ '9' then
      if 1000000 < num then (0, false, [])
      else parsenum (num * 10 + (c.toNat - 48)) true cs
    else (num, isnum, c :: cs)

/-- The text before the first `]` and the text after it; `none` when there
is no `]`. -/
def splitBracket : List Char → Option (List Char × List Char)
  | [] => none
  | c :: cs =>
    if c = ']' then some ([], cs)
    else (splitBracket cs).map (fun r => (c :: r.1, r.2))

/-- `parseArgNumber` on a text that starts with `[`: the text after the part
it consumes (up to and including the closing `]`, or only the `[` when
fewer than three characters are left or no `]` follows), and whether a
number stands between the brackets. -/
def parseArgNumber (s : List Char) : List Char × Bool :=
  if s.length < 3 then
    (s.drop 1, false)
  else
    match splitBracket (s.drop 1) with
    | some (inner, after) =>
      (after, (parsenum 0 false inner).2.1 && (parsenum 0 false inner).2.2.isEmpty)
    | none => (s.drop 1, false)

/-- What `doPrintf` keeps track of while it reads one verb. -/
structure VerbState where
  /-- The error markers written so far for this verb. -/
  out : List Char
  /-- The flag `goodArgNum`. -/
  goodArgNum : Bool
  /-- The flag `afterIndex`. -/
  afterIndex : Bool
  /-- The format text not yet read. -/
  rest : List Char
  deriving DecidableEq, Repr

/-- The flag characters `#`, `0`, `+`, `-` and the blank. -/
def isFlag (c : Char) : Bool :=
  c = '#' || c = '0' || c = '+' || c = '-' || c = ' '

/-- The start of a verb, right after its `%`: the flags are skipped. -/
def verbFlags (s : List Char) : VerbState :=
  { out := [], goodArgNum := true, afterIndex := false, rest := s.dropWhile isFlag }

/-- `argNumber` with no operands: an explicit argument index `[n]` can name
no operand, so it clears `goodArgNum`; `afterIndex` tells whether a
well-formed index was read. -/
def argNumber (v : VerbState) : VerbState :=
  match v.rest with
  | c :: _ =>
    if c = '[' then
      { v with goodArgNum := false, afterIndex := (parseArgNumber v.rest).2,
               rest := (parseArgNumber v.rest).1 }
    else { v with afterIndex := false }
  | [] => { v with afterIndex := false }

/-- The width: `*` finds no operand and writes `%!(BADWIDTH)`; otherwise a
number is read, which after an argument index is an error. -/
def verbWidth (v : VerbState) : VerbState :=
  match v.rest with
  | c :: cs =>
    if c = '*' then
      { v with out := v.out ++ "%!(BADWIDTH)".data, afterIndex := false, rest := cs }
    else
      { v with goodArgNum := if v.afterIndex && (parsenum 0 false v.rest).2.1 then false
                             else v.goodArgNum,
               rest := (parsenum 0 false v.rest).2.2 }
  | [] => v

/-- The number or `*` after the `.` of a precision. -/
def verbPrecValue (v : VerbState) : VerbState :=
  match v.rest with
  | c :: cs =>
    if c = '*' then
      { v with out := v.out ++ "%!(BADPREC)".data, afterIndex := false, rest := cs }
    else { v with rest := (parsenum 0 false v.rest).2.2 }
  | [] => v

/-- The precision, when the next character is `.`. -/
def verbPrec (v : VerbState) : VerbState :=
  match v.rest with
  | c :: cs =>
    if c = '.' then
      verbPrecValue
        (argNumber { v with goodArgNum := if v.afterIndex then false else v.goodArgNum,
                            rest := cs })
    else v
  | [] => v

/-- The argument index that may stand right before the verb character. -/
def verbIndex (v : VerbState) : VerbState :=
  if v.afterIndex then v else argNumber v

/-- The verb character: what is written for the verb, and the format text
after it.  Without a verb character `%!(NOVERB)` is written; `%` writes a
percent sign; any other verb finds no operand and writes `%!c(MISSING)`, or
`%!c(BADINDEX)` after a bad argument index. -/
def verbEnd (v : VerbState) : List Char × List Char :=
  match v.rest with
  | [] => (v.out ++ "%!(NOVERB)".data, [])
  | verb :: rest =>
    if verb = '%' then (v.out ++ ['%'], rest)
    else if v.goodArgNum = false then (v.out ++ "%!".data ++ [verb] ++ "(BADINDEX)".data, rest)
    else (v.out ++ "%!".data ++ [verb] ++ "(MISSING)".data, rest)

/-- One verb: the text written for it and the format text after it, given
the format text after the `%`. -/
def verb (s : List Char) : List Char × List Char :=
  verbEnd (verbIndex (verbPrec (verbWidth (argNumber (verbFlags s)))))

/-- The format loop of `doPrintf` with no operands.  `skip` counts the
characters that the verb just read has already consumed. -/
def formatLoop : Nat → List Char → List Char
  | _, [] => []
  | skip + 1, _ :: cs => formatLoop skip cs
  | 0, c :: cs =>
    if c = '%' then (verb cs).1 ++ formatLoop (cs.length - (verb cs).2.length) cs
    else c :: formatLoop 0 cs

/-- `fmt.Sprintf(format)` with no operands. -/
def Sprintf0 (format : String) : String :=
  ⟨formatLoop 0 format.data⟩

/-- The prompt that `ai.WithPrompt(text)` hands to the model. -/
def WithPrompt (text : String) : String :=
  Sprintf0 text

/-- What one run of the `POST /chat` handler does: the response written
(`none` when the handler panicked before writing one), the prompts passed
to `genkit.Generate`, and the server state afterwards. -/
structure PostResult where
  response : Option Response
  prompts : List String
  server : Server
  deriving DecidableEq, Repr

/-- The session id the `POST /chat` handler works with: the request's, or
`fmt.Sprintf("session_%d", time.Now().UnixNano())` when that is empty. -/
def effectiveSessionID (req : ChatRequest) (nano : Time) : String :=
  if req.SessionID = "" then "session_" ++ toString nano else req.SessionID

/-- The `POST /chat` handler.  `bound` is the outcome of
`c.ShouldBindJSON(&req)`: `none` for an error, `some req` for the bound
request (`ChatRequest` carries no `binding` tags, so a body that omits
`message` or `session_id` binds with the empty string in that field).
`generate` is the generation service, applied to the prompt that
`ai.WithPrompt(fullPrompt)` hands to it; `nano`, `tUser` and `tAssistant`
are the three clock readings. -/
def postChat (generate : String → Option String) (sv : Server) (bound : Option ChatRequest)
    (nano tUser tAssistant : Time) : PostResult :=
  match bound with
  | none =>
    { response := some ⟨StatusBadRequest, Body.error "無效的請求格式"⟩,
      prompts := [], server := sv }
  | some req =>
    let sessionID := effectiveSessionID req nano
    let got := GetSession sv sessionID
    let session := got.1
    let sv₁ := (AddMessage got.2 session "user" req.Message tUser).2
    let history := GetHistory sv₁ session
    match sliceTo history ((history.length : Int) - 1) with
    | none => { response := none, prompts := [], server := sv₁ }
    | some prior =>
      let contextPrompt := buildContextFromHistory prior
      let fullPrompt := contextPrompt ++ req.Message
      match generate (WithPrompt fullPrompt) with
      | none =>
        { response := some ⟨StatusInternalServerError, Body.error "AI 回應生成失敗"⟩,
          prompts := [WithPrompt fullPrompt], server := sv₁ }
      | some text =>
        let added := AddMessage sv₁ session "assistant" text tAssistant
        { response := some ⟨StatusOK, Body.chat { SessionID := sessionID, Message := added.1 }⟩,
          prompts := [WithPrompt fullPrompt], server := added.2 }

/-- The `GET /chat/:session_id/history` handler. -/
def getHistoryHandler (sv : Server) (sessionID : String) : Response × Server :=
  let got := GetSession sv sessionID
  let history := GetHistory got.2 got.1
  (⟨StatusOK, Body.history sessionID history⟩, got.2)

/-- The `DELETE /chat/:session_id` handler. -/
def deleteHandler (sv : Server) (sessionID : String) : Response × Server :=
  (⟨StatusOK, Body.message "對話記錄已刪除"⟩,
    { sv with chatManager := { sessions := mapDelete sv.chatManager.sessions sessionID } })

/-- The server states the program can be in: starting from
`NewChatManager`, the state-changing operations (`GetSession`, `AddMessage`
through any pointer, the map deletion of the `DELETE` handler) taken in any
serialized order. -/
inductive Reachable : Server → Prop where
  | init : Reachable NewChatManager
  | getSession (sv : Server) (sessionID : String) :
      Reachable sv → Reachable (GetSession sv sessionID).2
  | addMessage (sv : Server) (session : Ptr) (role content : String) (now : Time) :
      Reachable sv → Reachable (AddMessage sv session role content now).2
  | delete (sv : Server) (sessionID : String) :
      Reachable sv → Reachable (deleteHandler sv sessionID).2

/-! ### Slices over backing arrays

The definitions above treat `[]Message` as a list value.  To speak about
aliasing between a session's message slice and a slice handed to a caller,
the same two methods are given once more over an explicit memory of backing
arrays. -/

/-- A `[]Message` value: the backing array it points to and its length.
Every slice of this program starts at the first cell of its array, so the
capacity is the array's size.  `array = none` is a slice without cells (the
nil slice, or `make([]Message, 0)`). -/
structure Slice where
  array : Option Nat
  len : Nat
  deriving DecidableEq, Repr

/-- The memory of backing arrays; allocation appends an array. -/
abbrev Mem := List (List Message)

/-- The nil slice `[]Message(nil)`. -/
def Slice.nil : Slice := { array := none, len := 0 }

/-- The cells of a backing array. -/
def Mem.cells (mem : Mem) (a : Nat) : List Message :=
  mem.getD a []

/-- The elements `s[0], …, s[len(s)-1]`. -/
def Mem.read (mem : Mem) (s : Slice) : List Message :=
  match s.array with
  | none => []
  | some a => (mem.cells a).take s.len

/-- A slice that points into allocated memory, within capacity. -/
def Mem.valid (mem : Mem) (s : Slice) : Prop :=
  match s.array with
  | none => s.len = 0
  | some a => a < mem.length ∧ s.len ≤ (mem.cells a).length

instance (mem : Mem) (s : Slice) : Decidable (mem.valid s) := by
  unfold Mem.valid; cases s.array <;> exact inferInstance

/-- The builtin `append(s, xs...)`: the elements are written after the
slice's last element when the capacity suffices, and otherwise the slice's
elements and `xs` are copied into a newly allocated array with `extra`
spare cells (the runtime's growth policy is left open). -/
def goAppend (mem : Mem) (s : Slice) (xs : List Message) (extra : Nat) : Slice × Mem :=
  match s.array with
  | some a =>
    if s.len + xs.length ≤ (mem.cells a).length then
      ({ array := some a, len := s.len + xs.length },
        mem.set a ((mem.cells a).take s.len ++ xs ++ (mem.cells a).drop (s.len + xs.length)))
    else
      ({ array := some mem.length, len := s.len + xs.length },
        mem ++ [(mem.cells a).take s.len ++ xs ++ List.replicate extra default])
  | none =>
    if xs.length = 0 then
      (s, mem)
    else
      ({ array := some mem.length, len := xs.length },
        mem ++ [xs ++ List.replicate extra default])

/-- The struct `ChatSession` with its `Messages` field as a slice. -/
structure SessionObj where
  ID : String
  Messages : Slice
  deriving DecidableEq, Repr

/-- The list-level session a memory-level session stands for. -/
def SessionObj.abs (mem : Mem) (cs : SessionObj) : ChatSession :=
  { ID := cs.ID, Messages := mem.read cs.Messages }

/-- `ChatSession.AddMessage` over memory: the created message, the session
object and the memory afterwards. -/
def SessionObj.AddMessage (mem : Mem) (cs : SessionObj) (role content : String) (now : Time)
    (extra : Nat) : Message × SessionObj × Mem :=
  let message : Message :=
    { ID := sprintfID cs.ID cs.Messages.len,
      Role := role,
      Content := content,
      Timestamp := now }
  let r := goAppend mem cs.Messages [message] extra
  (message, { cs with Messages := r.1 }, r.2)

/-- A serialized run of `AddMessage` calls over memory; each call comes with
the spare capacity its `append` allocates should it have to grow. -/
def SessionObj.addAll (mem : Mem) (cs : SessionObj) : List (Append × Nat) → SessionObj × Mem
  | [] => (cs, mem)
  | a :: rest =>
    SessionObj.addAll (cs.AddMessage mem a.1.1 a.1.2.1 a.1.2.2 a.2).2.2
      (cs.AddMessage mem a.1.1 a.1.2.1 a.1.2.2 a.2).2.1 rest

/-- `ChatSession.GetHistory` over memory:
`append([]Message(nil), cs.Messages...)`. -/
def SessionObj.GetHistory (mem : Mem) (cs : SessionObj) (extra : Nat) : Slice × Mem :=
  goAppend mem Slice.nil (mem.read cs.Messages) extra

/-- What a caller can do with a slice variable `h` it holds. -/
inductive Mutation where
  /-- The assignment `h[i] = x`. -/
  | assign (i : Nat) (x : Message)
  /-- The statement `h = append(h, xs...)`. -/
  | append (xs : List Message) (extra : Nat)
  /-- The statement `h = h[:n]`. -/
  | reslice (n : Nat)
  deriving DecidableEq, Repr

/-- One caller step on the slice variable `h`.  An assignment or reslice
whose index is out of range panics and so changes nothing. -/
def mutate (mem : Mem) (h : Slice) : Mutation → Slice × Mem
  | Mutation.assign i x =>
    match h.array with
    | some a => if i < h.len then (h, mem.set a ((mem.cells a).set i x)) else (h, mem)
    | none => (h, mem)
  | Mutation.append xs extra => goAppend mem h xs extra
  | Mutation.reslice n =>
    match h.array with
    | some a => if n ≤ (mem.cells a).length then ({ h with len := n }, mem) else (h, mem)
    | none => (h, mem)

/-- A sequence of caller steps on the slice variable `h`. -/
def mutateAll (mem : Mem) (h : Slice) : List Mutation → Slice × Mem
  | [] => (h, mem)
  | μ :: rest => mutateAll (mutate mem h μ).2 (mutate mem h μ).1 rest

/-- A sample memory: one array of capacity 4 holding two messages, and the
session that owns it. -/
def sampleMem : Mem :=
  [[⟨"a_0", "user", "hi", 1⟩, ⟨"a_1", "assistant", "hello", 2⟩, default, default]]

/-- The session of the sample memory. -/
def sampleObj : SessionObj :=
  { ID := "a", Messages := { array := some 0, len := 2 } }

/-! ### Concurrent calls of `GetSession`

`GetSession` touches the session map only inside its two critical sections.
The write lock excludes every other section and the read-locked sections
only read, so an execution of several concurrent calls is an interleaving of
whole sections: a scheduler picks a call and that call runs its next section
to the end. -/

/-- Where a call of `GetSession` stands. -/
inductive Phase where
  /-- The call has not yet taken the read lock. -/
  | start
  /-- The read-locked lookup found no session; the call waits for the write
  lock. -/
  | missed
  /-- The call has returned `session`. -/
  | returned (session : Ptr)
  deriving DecidableEq, Repr

/-- A running call `GetSession(sessionID)`. -/
structure Call where
  sessionID : String
  phase : Phase
  deriving DecidableEq, Repr

/-- The read-locked section of `GetSession`: the first lookup. -/
def readSection (sv : Server) (sessionID : String) : Phase :=
  match mapGet sv.chatManager.sessions sessionID with
  | some session => Phase.returned session
  | none => Phase.missed

/-- The write-locked section of `GetSession`: the second lookup, then the
creation and registration of a new session. -/
def writeSection (sv : Server) (sessionID : String) : Ptr × Server :=
  match mapGet sv.chatManager.sessions sessionID with
  | some session => (session, sv)
  | none =>
    let session : Ptr := sv.heap.length
    (session,
      { heap := sv.heap ++ [{ ID := sessionID, Messages := [] }],
        chatManager := { sessions := mapSet sv.chatManager.sessions sessionID session } })

/-- The shared state together with the calls in flight. -/
structure Config where
  server : Server
  calls : List Call
  deriving DecidableEq, Repr

/-- The scheduler lets call number `i` run its next section.  A call that
has returned (or a number that names no call) leaves everything as it is. -/
def step (c : Config) (i : Nat) : Config :=
  match c.calls[i]? with
  | none => c
  | some call =>
    match call.phase with
    | Phase.start =>
      { c with calls := c.calls.set i { call with phase := readSection c.server call.sessionID } }
    | Phase.missed =>
      { server := (writeSection c.server call.sessionID).2,
        calls := c.calls.set i
          { call with phase := Phase.returned (writeSection c.server call.sessionID).1 } }
    | Phase.returned _ => c

/-- An execution: the scheduler's choices, in order. -/
def run (c : Config) (schedule : List Nat) : Config :=
  schedule.foldl step c

/-- The configuration in which the calls `GetSession(id)` for the given ids
have just been launched. -/
def launch (sv : Server) (ids : List String) : Config :=
  { server := sv, calls := ids.map (fun id => { sessionID := id, phase := Phase.start }) }

/-- How far a call has come: the number of sections it has left behind,
counting a call that returned as having passed both. -/
def Phase.rank : Phase → Nat
  | Phase.start => 0
  | Phase.missed => 1
  | Phase.returned _ => 2

/-- Every call that has returned holds the session registered under its id. -/
def Agree (c : Config) : Prop :=
  ∀ call ∈ c.calls, ∀ p, call.phase = Phase.returned p →
    mapGet c.server.chatManager.sessions call.sessionID = some p

/-- The two shapes a configuration can have while calls `GetSession(id)` for
an id unregistered in `sv` are in flight: nothing created yet and no call
returned, or the one session created and every returned call holding it. -/
def OneSession (sv : Server) (id : String) (c : Config) : Prop :=
  (c.server = sv ∧
    ∀ call ∈ c.calls, call.sessionID = id ∧
      (call.phase = Phase.start ∨ call.phase = Phase.missed)) ∨
  (c.server = (GetSession sv id).2 ∧
    ∀ call ∈ c.calls, call.sessionID = id ∧
      (call.phase = Phase.start ∨ call.phase = Phase.missed ∨
        call.phase = Phase.returned (GetSession sv id).1))

/-! ### Loading a `.env` file (`pkg/env/env.go`)

The process environment is a state that `loadEnvFile` reads with
`os.Getenv` and writes with `os.Setenv`.  The file is given by the lines
its `bufio.Scanner` yields, or by `none` when `os.Open` fails. -/

/-- The process environment: the variables that are set, with their values
(a variable may be set to the empty string). -/
abbrev Environ := List (String × String)

/-- `os.LookupEnv`: the value of a variable that is set. -/
def LookupEnv : Environ → String → Option String
  | [], _ => none
  | (k, v) :: rest, key => if key = "" then none else if k = key then some v else LookupEnv rest key

/-- `os.Getenv`: the value of the variable, and the empty string when it is
not set. -/
def Getenv (env : Environ) (key : String) : String :=
  (LookupEnv env key).getD ""

/-- `os.Setenv` with its error dropped, as `loadEnvFile` calls it: the call
fails, changing nothing, for an empty key, a key containing `=` or a NUL
character, and a value containing a NUL character. -/
def Setenv (env : Environ) (key value : String) : Environ :=
  if key = "" ∨ key.data.any (fun c => c = Char.ofNat 61 || c = Char.ofNat 0) = true ∨
      value.data.any (fun c => c = Char.ofNat 0) = true then
    env
  else
    (key, value) :: env.filter (fun e => decide (e.1 ≠ key))

/-- `unicode.IsSpace`: the white space characters `strings.TrimSpace`
removes. -/
def isSpace (c : Char) : Bool :=
  let n := c.toNat
  (9 ≤ n && n ≤ 13) || n == 32 || n == 133 || n == 160 || n == 5760 ||
  (8192 ≤ n && n ≤ 8202) || n == 8232 || n == 8233 || n == 8239 || n == 8287 || n == 12288

/-- `strings.TrimSpace`. -/
def TrimSpace (s : String) : String :=
  ⟨((s.data.dropWhile isSpace).reverse.dropWhile isSpace).reverse⟩

/-- `strings.SplitN(line, "=", 2)` when it yields two parts: the text before
the first `=` and the text after it; `none` when the line has no `=`. -/
def splitEq : List Char → Option (List Char × List Char)
  | [] => none
  | c :: cs =>
    if c = Char.ofNat 61 then some ([], cs)
    else (splitEq cs).map (fun r => (c :: r.1, r.2))

/-- The quote removal of `loadEnvFile`: a value of length at least two that
starts and ends with `"`, or starts and ends with the single quote, loses
these two characters. -/
def unquote (value : String) : String :=
  if 2 ≤ value.data.length then
    if (value.data.head? = some (Char.ofNat 34) ∧ value.data.getLast? = some (Char.ofNat 34)) ∨
        (value.data.head? = some (Char.ofNat 39) ∧ value.data.getLast? = some (Char.ofNat 39)) then
      ⟨(value.data.drop 1).dropLast⟩
    else value
  else value

/-- The body of the scanning loop of `loadEnvFile` for one line. -/
def loadLine (env : Environ) (text : String) : Environ :=
  let line := TrimSpace text
  if line = "" ∨ line.data.head? = some (Char.ofNat 35) then
    env
  else
    match splitEq line.data with
    | none => env
    | some parts =>
      let key := TrimSpace ⟨parts.1⟩
      let value := unquote (TrimSpace ⟨parts.2⟩)
      if Getenv env key = "" then Setenv env key value else env

/-- `loadEnvFile`, as a function of the environment: `file` is `none` when
the file cannot be opened, and otherwise the lines the scanner yields. -/
def loadEnvFile (env : Environ) (file : Option (List String)) : Environ :=
  match file with
  | none => env
  | some lines => lines.foldl loadLine env

/-! # Properties -/

/-! ## Decimal rendering -/

theorem digitVal_digitChar {k : Nat} (h : k < 10) : digitVal (Nat.digitChar k) = k := by
  interval_cases k <;> rfl

theorem readDecimal_toDigitsCore (fuel : Nat) : ∀ (n : Nat) (ds : List Char), n < fuel →
    readDecimal 0 (Nat.toDigitsCore 10 fuel n ds) = readDecimal n ds := by
  induction fuel with
  | zero => intro n ds h; omega
  | succ fuel ih =>
    intro n ds h
    have hd : digitVal (Nat.digitChar (n % 10)) = n % 10 :=
      digitVal_digitChar (Nat.mod_lt _ (by decide))
    simp only [Nat.toDigitsCore]
    split
    · rename_i h0
      have hn : n % 10 = n := by omega
      simp only [readDecimal, List.foldl_cons, Nat.zero_mul, Nat.zero_add]
      rw [hd, hn]
    · rename_i h0
      rw [ih (n / 10) _ (by omega)]
      simp only [readDecimal, List.foldl_cons, hd]
      congr 1
      omega

theorem readDecimal_toString (n : Nat) : readDecimal 0 (toString n).data = n := by
  show readDecimal 0 (Nat.repr n).data = n
  simp only [Nat.repr, Nat.toDigits, List.asString]
  exact readDecimal_toDigitsCore (n + 1) n [] (Nat.lt_succ_self n)

theorem toString_nat_injective {m n : Nat} (h : toString m = toString n) : m = n := by
  have := congrArg (fun s => readDecimal 0 s.data) h
  simpa [readDecimal_toString] using this

theorem sprintfID_injective (id : String) {m n : Nat} (h : sprintfID id m = sprintfID id n) :
    m = n := by
  apply toString_nat_injective
  have := congrArg String.data h
  simp only [sprintfID, String.data_append] at this
  exact String.ext (List.append_cancel_left this)

/-! ## The session map -/

theorem mapGet_mem {m : List (String × Ptr)} {k : String} {v : Ptr}
    (h : mapGet m k = some v) : (k, v) ∈ m := by
  induction m with
  | nil => simp [mapGet] at h
  | cons e rest ih =>
    obtain ⟨k', v'⟩ := e
    by_cases hk : k' = k
    · simp [mapGet, hk] at h
      simp [hk, h]
    · simp [mapGet, hk] at h
      exact List.mem_cons_of_mem _ (ih h)

theorem mapGet_mapDelete_self (m : List (String × Ptr)) (k : String) :
    mapGet (mapDelete m k) k = none := by
  induction m with
  | nil => rfl
  | cons e rest ih =>
    obtain ⟨k', v'⟩ := e
    by_cases hk : k' = k
    · simpa [mapDelete, hk] using ih
    · simpa [mapDelete, hk, mapGet] using ih

theorem mapDelete_cons_eq (k : String) (v : Ptr) (rest : List (String × Ptr)) :
    mapDelete ((k, v) :: rest) k = mapDelete rest k := by
  simp [mapDelete]

theorem mapDelete_cons_ne {k k' : String} (v : Ptr) (rest : List (String × Ptr))
    (h : k' ≠ k) : mapDelete ((k', v) :: rest) k = (k', v) :: mapDelete rest k := by
  simp [mapDelete, h]

theorem mapGet_cons_eq (k : String) (v : Ptr) (rest : List (String × Ptr)) :
    mapGet ((k, v) :: rest) k = some v := by
  simp [mapGet]

theorem mapGet_cons_ne {k k' : String} (v : Ptr) (rest : List (String × Ptr))
    (h : k' ≠ k) : mapGet ((k', v) :: rest) k = mapGet rest k := by
  simp [mapGet, h]

theorem mapGet_mapDelete_ne (m : List (String × Ptr)) {k k' : String} (h : k' ≠ k) :
    mapGet (mapDelete m k) k' = mapGet m k' := by
  induction m with
  | nil => rfl
  | cons e rest ih =>
    obtain ⟨k₀, v₀⟩ := e
    by_cases hk : k₀ = k
    · subst hk
      rw [mapDelete_cons_eq, mapGet_cons_ne _ _ (Ne.symm h), ih]
    · rw [mapDelete_cons_ne _ _ hk]
      by_cases hk' : k₀ = k'
      · subst hk'
        rw [mapGet_cons_eq, mapGet_cons_eq]
      · rw [mapGet_cons_ne _ _ hk', mapGet_cons_ne _ _ hk', ih]

theorem mapDelete_of_mapGet_none {m : List (String × Ptr)} {k : String}
    (h : mapGet m k = none) : mapDelete m k = m := by
  induction m with
  | nil => rfl
  | cons e rest ih =>
    obtain ⟨k', v'⟩ := e
    by_cases hk : k' = k
    · simp [mapGet, hk] at h
    · simp [mapGet, hk] at h
      have := ih h
      simp [mapDelete, hk] at this ⊢
      exact this

theorem mapGet_mapSet_self (m : List (String × Ptr)) (k : String) (v : Ptr) :
    mapGet (mapSet m k v) k = some v := by
  simp [mapSet, mapGet]

theorem mapGet_mapSet_ne (m : List (String × Ptr)) {k k' : String} (v : Ptr) (h : k' ≠ k) :
    mapGet (mapSet m k v) k' = mapGet m k' := by
  have hne : ¬ k = k' := fun e => h e.symm
  simp [mapSet, mapGet, hne, mapGet_mapDelete_ne m h]

theorem mem_mapDelete {m : List (String × Ptr)} {k : String} {e : String × Ptr}
    (h : e ∈ mapDelete m k) : e ∈ m ∧ e.1 ≠ k := by
  simpa [mapDelete] using h

/-! ## `GetSession` -/

theorem GetSession_of_some {sv : Server} {id : String} {p : Ptr}
    (h : mapGet sv.chatManager.sessions id = some p) : GetSession sv id = (p, sv) := by
  simp [GetSession, h]

theorem GetSession_of_none {sv : Server} {id : String}
    (h : mapGet sv.chatManager.sessions id = none) :
    GetSession sv id =
      (sv.heap.length,
        { heap := sv.heap ++ [{ ID := id, Messages := [] }],
          chatManager := { sessions := mapSet sv.chatManager.sessions id sv.heap.length } }) := by
  simp [GetSession, h]

/-! ## The heap -/

@[simp] theorem GetHistory_eq (cs : ChatSession) : cs.GetHistory = cs.Messages := by
  simp [ChatSession.GetHistory]

theorem deref_of_lt {sv : Server} {p : Ptr} (h : p < sv.heap.length) :
    sv.heap.get? p = some (sv.deref p) := by
  simp [Server.deref, List.getD_eq_getElem?_getD, List.getElem?_eq_getElem h]

theorem deref_append_of_lt (heap : List ChatSession) (cs : ChatSession) (cm : ChatManager)
    {p : Ptr} (h : p < heap.length) :
    ({ heap := heap ++ [cs], chatManager := cm } : Server).deref p =
      ({ heap := heap, chatManager := cm } : Server).deref p := by
  simp [Server.deref, List.getD_eq_getElem?_getD, List.getElem?_append_left h]

theorem deref_append_length (heap : List ChatSession) (cs : ChatSession) (cm : ChatManager) :
    ({ heap := heap ++ [cs], chatManager := cm } : Server).deref heap.length = cs := by
  simp [Server.deref, List.getD_eq_getElem?_getD]

theorem deref_set_ne (heap : List ChatSession) (cs : ChatSession) (cm : ChatManager)
    {p q : Ptr} (h : q ≠ p) :
    ({ heap := heap.set p cs, chatManager := cm } : Server).deref q =
      ({ heap := heap, chatManager := cm } : Server).deref q := by
  simp [Server.deref, List.getD_eq_getElem?_getD, List.getElem?_set_ne (Ne.symm h)]

theorem deref_set_self (heap : List ChatSession) (cs : ChatSession) (cm : ChatManager)
    {p : Ptr} (h : p < heap.length) :
    ({ heap := heap.set p cs, chatManager := cm } : Server).deref p = cs := by
  simp [Server.deref, List.getD_eq_getElem?_getD, List.getElem?_set_self, h]

/-! ## `AddMessage` through a pointer -/

@[simp] theorem AddMessage_chatManager (sv : Server) (p : Ptr) (role content : String)
    (now : Time) : (AddMessage sv p role content now).2.chatManager = sv.chatManager := rfl

@[simp] theorem AddMessage_heap_length (sv : Server) (p : Ptr) (role content : String)
    (now : Time) : (AddMessage sv p role content now).2.heap.length = sv.heap.length := by
  simp [AddMessage]

theorem AddMessage_deref_ne (sv : Server) {p q : Ptr} (role content : String) (now : Time)
    (h : q ≠ p) : (AddMessage sv p role content now).2.deref q = sv.deref q := by
  simp only [AddMessage]
  exact deref_set_ne sv.heap _ sv.chatManager h

theorem AddMessage_deref_self (sv : Server) {p : Ptr} (role content : String) (now : Time)
    (h : p < sv.heap.length) :
    (AddMessage sv p role content now).2.deref p =
      ((sv.deref p).AddMessage role content now).2 := by
  simp only [AddMessage]
  exact deref_set_self sv.heap _ sv.chatManager h

@[simp] theorem addAll_chatManager (sv : Server) (p : Ptr) (ops : List Append) :
    (addAll sv p ops).chatManager = sv.chatManager := by
  induction ops generalizing sv with
  | nil => rfl
  | cons a rest ih => simp [addAll, ih]

@[simp] theorem addAll_heap_length (sv : Server) (p : Ptr) (ops : List Append) :
    (addAll sv p ops).heap.length = sv.heap.length := by
  induction ops generalizing sv with
  | nil => rfl
  | cons a rest ih => simp [addAll, ih]

theorem addAll_deref_ne (sv : Server) {p q : Ptr} (ops : List Append) (h : q ≠ p) :
    (addAll sv p ops).deref q = sv.deref q := by
  induction ops generalizing sv with
  | nil => rfl
  | cons a rest ih => simp [addAll, ih, AddMessage_deref_ne _ _ _ _ h]

theorem addAll_deref_self (sv : Server) {p : Ptr} (ops : List Append)
    (h : p < sv.heap.length) :
    (addAll sv p ops).deref p = (sv.deref p).addAll ops := by
  induction ops generalizing sv with
  | nil => rfl
  | cons a rest ih =>
    simp only [addAll, ChatSession.addAll]
    rw [ih _ (by simpa using h), AddMessage_deref_self _ _ _ _ h]

/-! ## The invariant -/

theorem Server.WF.lt {sv : Server} (hwf : sv.WF) {id : String} {p : Ptr}
    (h : mapGet sv.chatManager.sessions id = some p) : p < sv.heap.length := by
  have := hwf.1 _ (mapGet_mem h)
  simp only [List.get?_eq_getElem?] at this
  by_contra hlt
  rw [List.getElem?_eq_none (Nat.le_of_not_lt hlt)] at this
  simp at this

theorem Server.WF.ID_eq {sv : Server} (hwf : sv.WF) {id : String} {p : Ptr}
    (h : mapGet sv.chatManager.sessions id = some p) : (sv.deref p).ID = id := by
  have := hwf.1 _ (mapGet_mem h)
  rw [deref_of_lt (hwf.lt h)] at this
  simpa using this

theorem Server.WF.ne {sv : Server} (hwf : sv.WF) {a b : String} {pa pb : Ptr}
    (ha : mapGet sv.chatManager.sessions a = some pa)
    (hb : mapGet sv.chatManager.sessions b = some pb) (hab : a ≠ b) : pa ≠ pb := by
  intro h
  have := List.inj_on_of_nodup_map hwf.2 (mapGet_mem ha) (mapGet_mem hb) h
  exact hab (congrArg Prod.fst this)

theorem WF_NewChatManager : NewChatManager.WF := by decide

theorem WF_GetSession {sv : Server} (hwf : sv.WF) (id : String) : (GetSession sv id).2.WF := by
  cases h : mapGet sv.chatManager.sessions id with
  | some p => rw [GetSession_of_some h]; exact hwf
  | none =>
    rw [GetSession_of_none h]
    have hlt : ∀ e ∈ sv.chatManager.sessions, e.2 < sv.heap.length := by
      intro e he
      have := hwf.1 e he
      simp only [List.get?_eq_getElem?] at this
      by_contra hlt
      rw [List.getElem?_eq_none (Nat.le_of_not_lt hlt)] at this
      simp at this
    refine ⟨?_, ?_⟩
    · intro e he
      simp only [mapSet, List.mem_cons] at he
      rcases he with rfl | he
      · simp
      · have hm := (mem_mapDelete he).1
        have := hwf.1 e hm
        simp only [List.get?_eq_getElem?] at this ⊢
        rw [List.getElem?_append_left (hlt e hm)]
        exact this
    · simp only [mapSet, List.map_cons, List.nodup_cons]
      refine ⟨?_, ?_⟩
      · intro hmem
        obtain ⟨e, he, hep⟩ := List.mem_map.1 hmem
        have := hlt e (mem_mapDelete he).1
        rw [hep] at this
        exact Nat.lt_irrefl _ this
      · exact List.Nodup.sublist (List.Sublist.map _ (List.filter_sublist _)) hwf.2

theorem WF_AddMessage {sv : Server} (hwf : sv.WF) (p : Ptr) (role content : String)
    (now : Time) : (AddMessage sv p role content now).2.WF := by
  refine ⟨?_, hwf.2⟩
  intro e he
  have := hwf.1 e he
  simp only [List.get?_eq_getElem?, AddMessage] at this ⊢
  by_cases hp : p = e.2
  · rw [← hp] at this ⊢
    have hlt : p < sv.heap.length := by
      by_contra hlt
      rw [List.getElem?_eq_none (Nat.le_of_not_lt hlt)] at this
      simp at this
    rw [List.getElem?_set_self hlt]
    have hd := deref_of_lt hlt
    simp only [List.get?_eq_getElem?] at hd
    rw [hd] at this
    simpa [ChatSession.AddMessage] using this
  · rw [List.getElem?_set_ne hp]
    exact this

theorem WF_addAll {sv : Server} (hwf : sv.WF) (p : Ptr) (ops : List Append) :
    (addAll sv p ops).WF := by
  induction ops generalizing sv with
  | nil => exact hwf
  | cons a rest ih => exact ih (WF_AddMessage hwf p _ _ _)

/-! ## Reading a session's history -/

theorem historyOf_of_some {sv : Server} {id : String} {p : Ptr}
    (h : mapGet sv.chatManager.sessions id = some p) :
    historyOf sv id = (sv.deref p).Messages := by
  simp [historyOf, GetSession_of_some h, GetHistory]

theorem historyOf_of_none {sv : Server} {id : String}
    (h : mapGet sv.chatManager.sessions id = none) : historyOf sv id = [] := by
  simp only [historyOf, GetSession_of_none h, GetHistory, GetHistory_eq]
  rw [deref_append_length]

theorem GetSession_mapGet_ne (sv : Server) {a b : String} (hab : b ≠ a) :
    mapGet (GetSession sv a).2.chatManager.sessions b = mapGet sv.chatManager.sessions b := by
  cases h : mapGet sv.chatManager.sessions a with
  | some p => rw [GetSession_of_some h]
  | none => rw [GetSession_of_none h]; exact mapGet_mapSet_ne _ _ hab

theorem GetSession_mapGet_self (sv : Server) (a : String) :
    mapGet (GetSession sv a).2.chatManager.sessions a = some (GetSession sv a).1 := by
  cases h : mapGet sv.chatManager.sessions a with
  | some p => rw [GetSession_of_some h]; exact h
  | none => rw [GetSession_of_none h]; exact mapGet_mapSet_self _ _ _

theorem GetSession_deref_of_lt (sv : Server) (a : String) {q : Ptr} (hq : q < sv.heap.length) :
    (GetSession sv a).2.deref q = sv.deref q := by
  cases h : mapGet sv.chatManager.sessions a with
  | some p => rw [GetSession_of_some h]
  | none => rw [GetSession_of_none h]; exact deref_append_of_lt _ _ _ hq

theorem GetSession_lt {sv : Server} (hwf : sv.WF) (a : String) :
    (GetSession sv a).1 < (GetSession sv a).2.heap.length :=
  (WF_GetSession hwf a).lt (GetSession_mapGet_self sv a)

/-- Appends through the pointer of session `a` are invisible to a reader of
another session `b`. -/
theorem historyOf_addAll_other {sv : Server} (hwf : sv.WF) {a b : String} (hab : a ≠ b)
    (ops : List Append) :
    historyOf (addAll (GetSession sv a).2 (GetSession sv a).1 ops) b = historyOf sv b := by
  have hwf' := WF_GetSession hwf a
  have ha := GetSession_mapGet_self sv a
  have hb := GetSession_mapGet_ne sv (Ne.symm hab)
  cases h : mapGet sv.chatManager.sessions b with
  | none =>
    rw [historyOf_of_none h, historyOf_of_none]
    rw [addAll_chatManager, hb, h]
  | some pb =>
    rw [h] at hb
    rw [historyOf_of_some h, historyOf_of_some (by rw [addAll_chatManager]; exact hb)]
    rw [addAll_deref_ne _ _ (hwf'.ne hb ha (Ne.symm hab)), GetSession_deref_of_lt _ _ (hwf.lt h)]

/-! ## The handlers -/

theorem historyOf_eq_deref (sv : Server) (id : String) :
    historyOf sv id = ((GetSession sv id).2.deref (GetSession sv id).1).Messages := by
  simp [historyOf, GetHistory]

theorem GetSession_deref {sv : Server} (hwf : sv.WF) (id : String) :
    (GetSession sv id).2.deref (GetSession sv id).1 = { ID := id, Messages := historyOf sv id } := by
  have hid := (WF_GetSession hwf id).ID_eq (GetSession_mapGet_self sv id)
  rw [historyOf_eq_deref]
  generalize (GetSession sv id).2.deref (GetSession sv id).1 = cs at hid
  cases cs
  simp at hid
  simp [hid]

theorem AddMessage_fst (sv : Server) (p : Ptr) (role content : String) (now : Time) :
    (AddMessage sv p role content now).1 = ((sv.deref p).AddMessage role content now).1 := rfl

/-- The message `AddMessage` creates in the session resolved for `id`. -/
theorem AddMessage_GetSession_fst {sv : Server} (hwf : sv.WF) (id role content : String)
    (now : Time) :
    (AddMessage (GetSession sv id).2 (GetSession sv id).1 role content now).1 =
      ⟨sprintfID id (historyOf sv id).length, role, content, now⟩ := by
  simp [AddMessage, GetSession_deref hwf id, ChatSession.AddMessage]

theorem AddMessage_GetSession_deref {sv : Server} (hwf : sv.WF) (id role content : String)
    (now : Time) :
    (AddMessage (GetSession sv id).2 (GetSession sv id).1 role content now).2.deref
        (GetSession sv id).1 =
      { ID := id,
        Messages := historyOf sv id ++
          [⟨sprintfID id (historyOf sv id).length, role, content, now⟩] } := by
  rw [AddMessage_deref_self _ _ _ _ (GetSession_lt hwf id), GetSession_deref hwf id]
  simp [ChatSession.AddMessage]

theorem historyOf_AddMessage_GetSession {sv : Server} (hwf : sv.WF) (id role content : String)
    (now : Time) :
    historyOf (AddMessage (GetSession sv id).2 (GetSession sv id).1 role content now).2 id =
      historyOf sv id ++ [⟨sprintfID id (historyOf sv id).length, role, content, now⟩] := by
  rw [@historyOf_of_some _ _ (GetSession sv id).1
    (by rw [AddMessage_chatManager]; exact GetSession_mapGet_self sv id)]
  rw [AddMessage_GetSession_deref hwf]

theorem sliceTo_append_singleton (H : List Message) (m : Message) :
    sliceTo (H ++ [m]) (((H ++ [m]).length : Int) - 1) = some H := by
  have h1 : (((H ++ [m]).length : Int) - 1) = (H.length : Int) := by
    simp
  rw [h1]
  simp [sliceTo]

/-- The `POST /chat` handler on a bound request, with the slice expression
resolved: in a well-formed store the dropped entry is the user message just
appended. -/
theorem postChat_some {sv : Server} (hwf : sv.WF) (generate : String → Option String)
    (req : ChatRequest) (nano tUser tAssistant : Time) :
    postChat generate sv (some req) nano tUser tAssistant =
      match generate
        (WithPrompt (buildContextFromHistory (historyOf sv (effectiveSessionID req nano)) ++
        req.Message)) with
      | none =>
        { response := some ⟨StatusInternalServerError, Body.error "AI 回應生成失敗"⟩,
          prompts := [WithPrompt
            (buildContextFromHistory (historyOf sv (effectiveSessionID req nano)) ++
              req.Message)],
          server := (AddMessage (GetSession sv (effectiveSessionID req nano)).2
            (GetSession sv (effectiveSessionID req nano)).1 "user" req.Message tUser).2 }
      | some text =>
        { response := some ⟨StatusOK, Body.chat
            { SessionID := effectiveSessionID req nano,
              Message := (AddMessage (AddMessage (GetSession sv (effectiveSessionID req nano)).2
                (GetSession sv (effectiveSessionID req nano)).1 "user" req.Message tUser).2
                (GetSession sv (effectiveSessionID req nano)).1 "assistant" text tAssistant).1 }⟩,
          prompts := [WithPrompt
            (buildContextFromHistory (historyOf sv (effectiveSessionID req nano)) ++
              req.Message)],
          server := (AddMessage (AddMessage (GetSession sv (effectiveSessionID req nano)).2
                (GetSession sv (effectiveSessionID req nano)).1 "user" req.Message tUser).2
                (GetSession sv (effectiveSessionID req nano)).1 "assistant" text tAssistant).2 } := by
  simp only [postChat, GetHistory, GetHistory_eq]
  rw [AddMessage_GetSession_deref hwf]
  simp only [sliceTo_append_singleton]

theorem WF_postChat {sv : Server} (hwf : sv.WF) (generate : String → Option String)
    (bound : Option ChatRequest) (nano tUser tAssistant : Time) :
    (postChat generate sv bound nano tUser tAssistant).server.WF := by
  cases bound with
  | none => exact hwf
  | some req =>
    rw [postChat_some hwf]
    have h1 := WF_AddMessage (WF_GetSession hwf (effectiveSessionID req nano))
      (GetSession sv (effectiveSessionID req nano)).1 "user" req.Message tUser
    cases generate
      (WithPrompt (buildContextFromHistory (historyOf sv (effectiveSessionID req nano)) ++
        req.Message)) with
    | none => exact h1
    | some text => exact WF_AddMessage h1 _ _ _ _

/-- Two appends through the pointer of the session resolved for `id`. -/
theorem historyOf_AddMessage_twice {sv : Server} (hwf : sv.WF) (id r₁ c₁ r₂ c₂ : String)
    (t₁ t₂ : Time) :
    (AddMessage (AddMessage (GetSession sv id).2 (GetSession sv id).1 r₁ c₁ t₁).2
        (GetSession sv id).1 r₂ c₂ t₂).1 =
      ⟨sprintfID id ((historyOf sv id).length + 1), r₂, c₂, t₂⟩ ∧
    historyOf (AddMessage (AddMessage (GetSession sv id).2 (GetSession sv id).1 r₁ c₁ t₁).2
        (GetSession sv id).1 r₂ c₂ t₂).2 id =
      historyOf sv id ++ [⟨sprintfID id (historyOf sv id).length, r₁, c₁, t₁⟩,
        ⟨sprintfID id ((historyOf sv id).length + 1), r₂, c₂, t₂⟩] := by
  have hlt : (GetSession sv id).1 <
      (AddMessage (GetSession sv id).2 (GetSession sv id).1 r₁ c₁ t₁).2.heap.length := by
    rw [AddMessage_heap_length]; exact GetSession_lt hwf id
  constructor
  · rw [AddMessage_fst, AddMessage_GetSession_deref hwf]
    simp [ChatSession.AddMessage]
  · rw [@historyOf_of_some _ _ (GetSession sv id).1
      (by simp only [AddMessage_chatManager]; exact GetSession_mapGet_self sv id)]
    rw [AddMessage_deref_self _ _ _ _ hlt, AddMessage_GetSession_deref hwf]
    simp [ChatSession.AddMessage]

/-- Appends through the pointer of the session resolved for `id` leave the
map entries and the histories of all other ids as they were. -/
theorem AddMessage_GetSession_other {sv : Server} (hwf : sv.WF) {id other : String}
    (h : other ≠ id) (role content : String) (now : Time) :
    mapGet (AddMessage (GetSession sv id).2 (GetSession sv id).1 role content
        now).2.chatManager.sessions other = mapGet sv.chatManager.sessions other ∧
    historyOf (AddMessage (GetSession sv id).2 (GetSession sv id).1 role content now).2 other =
      historyOf sv other :=
  ⟨by rw [AddMessage_chatManager]; exact GetSession_mapGet_ne sv h,
   historyOf_addAll_other hwf (Ne.symm h) [(role, content, now)]⟩

theorem WF_getHistoryHandler {sv : Server} (hwf : sv.WF) (sessionID : String) :
    (getHistoryHandler sv sessionID).2.WF :=
  WF_GetSession hwf sessionID

theorem WF_deleteHandler {sv : Server} (hwf : sv.WF) (sessionID : String) :
    (deleteHandler sv sessionID).2.WF := by
  refine ⟨fun e he => hwf.1 e (mem_mapDelete he).1, ?_⟩
  exact List.Nodup.sublist (List.Sublist.map _ (List.filter_sublist _)) hwf.2

/-- Every reachable server state satisfies the invariant. -/
theorem WF_of_Reachable {sv : Server} (h : Reachable sv) : sv.WF := by
  induction h with
  | init => exact WF_NewChatManager
  | getSession sv sessionID _ ih => exact WF_GetSession ih sessionID
  | addMessage sv session role content now _ ih => exact WF_AddMessage ih session role content now
  | delete sv sessionID _ ih => exact WF_deleteHandler ih sessionID

/-! ## Slices and backing arrays -/

theorem cells_set_ne (mem : Mem) (arr : List Message) {a b : Nat} (h : b ≠ a) :
    Mem.cells (mem.set a arr) b = Mem.cells mem b := by
  simp [Mem.cells, List.getD_eq_getElem?_getD, List.getElem?_set_ne (Ne.symm h)]

theorem cells_set_self (mem : Mem) (arr : List Message) {a : Nat} (h : a < mem.length) :
    Mem.cells (mem.set a arr) a = arr := by
  simp [Mem.cells, List.getD_eq_getElem?_getD, List.getElem?_set_self, h]

theorem cells_append_lt (mem : Mem) (arr : List Message) {b : Nat} (h : b < mem.length) :
    Mem.cells (mem ++ [arr]) b = Mem.cells mem b := by
  simp [Mem.cells, List.getD_eq_getElem?_getD, List.getElem?_append_left h]

theorem cells_append_length (mem : Mem) (arr : List Message) :
    Mem.cells (mem ++ [arr]) mem.length = arr := by
  simp [Mem.cells, List.getD_eq_getElem?_getD]

theorem take_append_append (l xs pad : List Message) (n : Nat) (h : n ≤ l.length) :
    (l.take n ++ xs ++ pad).take (n + xs.length) = l.take n ++ xs := by
  have hl : (l.take n ++ xs).length = n + xs.length := by
    simp [List.length_take, Nat.min_eq_left h]
  rw [← hl, List.take_left']
  rfl

/-- The elements of the slice `append` returns are the old elements
followed by the appended ones. -/
theorem goAppend_read (mem : Mem) (s : Slice) (xs : List Message) (extra : Nat)
    (hv : mem.valid s) :
    Mem.read (goAppend mem s xs extra).2 (goAppend mem s xs extra).1 = Mem.read mem s ++ xs := by
  unfold goAppend
  cases ha : s.array with
  | none =>
    simp only [Mem.valid, ha] at hv
    by_cases hx : xs.length = 0
    · have : xs = [] := List.length_eq_zero.1 hx
      simp [hx, Mem.read, ha, this]
    · simp only [hx, if_false, Mem.read, ha, cells_append_length, List.nil_append]
      exact List.take_left' rfl
  | some a =>
    simp only [Mem.valid, ha] at hv
    by_cases hc : s.len + xs.length ≤ (Mem.cells mem a).length
    · simp only [hc, if_true, Mem.read, ha, cells_set_self _ _ hv.1]
      exact take_append_append _ _ _ _ hv.2
    · simp only [hc, if_false, Mem.read, ha, cells_append_length]
      exact take_append_append _ _ _ _ hv.2

/-- A call of `append` on a slice leaves alone every allocated array other
than the slice's own, and the slice it returns points to the slice's own
array or to a new one. -/
theorem goAppend_frame (mem : Mem) (s : Slice) (xs : List Message) (extra : Nat) {b : Nat}
    (hb : b < mem.length) (hne : s.array ≠ some b) :
    Mem.cells (goAppend mem s xs extra).2 b = Mem.cells mem b ∧
    b < (goAppend mem s xs extra).2.length ∧
    (goAppend mem s xs extra).1.array ≠ some b := by
  unfold goAppend
  cases ha : s.array with
  | none =>
    by_cases hx : xs.length = 0
    · simp [hx, ha, hb]
    · simp only [hx, if_false, cells_append_lt _ _ hb, List.length_append, List.length_singleton]
      refine ⟨trivial, by omega, ?_⟩
      intro h
      have := Option.some.inj h
      omega
  | some a =>
    have hab : b ≠ a := fun h => hne (by rw [ha, h])
    by_cases hc : s.len + xs.length ≤ (Mem.cells mem a).length
    · simp only [hc, if_true, cells_set_ne _ _ hab, List.length_set]
      refine ⟨trivial, hb, ?_⟩
      intro h
      exact hab (Option.some.inj h).symm
    · simp only [hc, if_false, cells_append_lt _ _ hb, List.length_append,
        List.length_singleton]
      refine ⟨trivial, by omega, ?_⟩
      intro h
      have := Option.some.inj h
      omega

theorem mutate_frame (mem : Mem) (h : Slice) (μ : Mutation) {b : Nat}
    (hb : b < mem.length) (hne : h.array ≠ some b) :
    Mem.cells (mutate mem h μ).2 b = Mem.cells mem b ∧
    b < (mutate mem h μ).2.length ∧
    (mutate mem h μ).1.array ≠ some b := by
  cases μ with
  | append xs extra => exact goAppend_frame mem h xs extra hb hne
  | assign i x =>
    unfold mutate
    cases ha : h.array with
    | none => simp [hb, hne]
    | some a =>
      have hab : b ≠ a := fun e => hne (by rw [ha, e])
      by_cases hi : i < h.len
      · simp only [hi, if_true, cells_set_ne _ _ hab, List.length_set]
        exact ⟨trivial, hb, hne⟩
      · simp only [hi, if_false]
        exact ⟨trivial, hb, hne⟩
  | reslice n =>
    unfold mutate
    cases ha : h.array with
    | none => simp [hb, hne]
    | some a =>
      have hab : b ≠ a := fun e => hne (by rw [ha, e])
      by_cases hn : n ≤ (Mem.cells mem a).length
      · simp only [hn, if_true]
        refine ⟨trivial, hb, ?_⟩
        intro e
        exact hab (Option.some.inj e).symm
      · simp only [hn, if_false]
        exact ⟨trivial, hb, hne⟩

theorem mutateAll_frame (muts : List Mutation) : ∀ (mem : Mem) (h : Slice) {b : Nat},
    b < mem.length → h.array ≠ some b →
    Mem.cells (mutateAll mem h muts).2 b = Mem.cells mem b := by
  induction muts with
  | nil => intro mem h b _ _; rfl
  | cons μ rest ih =>
    intro mem h b hb hne
    have hf := mutate_frame mem h μ hb hne
    simp only [mutateAll]
    rw [ih _ _ hf.2.1 hf.2.2, hf.1]

/-- Reading a slice depends only on the cells of its own array. -/
theorem read_congr {mem mem' : Mem} (s : Slice)
    (h : ∀ a, s.array = some a → Mem.cells mem' a = Mem.cells mem a) :
    Mem.read mem' s = Mem.read mem s := by
  unfold Mem.read
  cases ha : s.array with
  | none => rfl
  | some a => simp only [h a ha]

/-- The slice `GetHistory` returns does not point to the session's array. -/
theorem GetHistory_array_ne (mem : Mem) (cs : SessionObj) (extra : Nat) {a : Nat}
    (ha : a < mem.length) : (cs.GetHistory mem extra).1.array ≠ some a :=
  (goAppend_frame mem Slice.nil _ extra ha (by simp [Slice.nil])).2.2

theorem valid_nil (mem : Mem) : mem.valid Slice.nil := by
  simp [Mem.valid, Slice.nil]

/-- The length field of a valid slice is the number of elements read. -/
theorem read_length {mem : Mem} {s : Slice} (hv : mem.valid s) :
    (Mem.read mem s).length = s.len := by
  unfold Mem.read
  cases ha : s.array with
  | none => simp only [Mem.valid, ha] at hv; simp [hv]
  | some a =>
    simp only [Mem.valid, ha] at hv
    simp [List.length_take, Nat.min_eq_left hv.2]

/-- Refinement: over memory, `AddMessage` creates the message and leaves the
elements that the list-level `ChatSession.AddMessage` computes. -/
theorem AddMessage_refines (mem : Mem) (cs : SessionObj) (hv : mem.valid cs.Messages)
    (role content : String) (now : Time) (extra : Nat) :
    (cs.AddMessage mem role content now extra).1 =
      ((cs.abs mem).AddMessage role content now).1 ∧
    (cs.AddMessage mem role content now extra).2.1.abs
        (cs.AddMessage mem role content now extra).2.2 =
      ((cs.abs mem).AddMessage role content now).2 := by
  constructor
  · simp [SessionObj.AddMessage, ChatSession.AddMessage, SessionObj.abs, read_length hv]
  · simp only [SessionObj.AddMessage, ChatSession.AddMessage, SessionObj.abs,
      goAppend_read _ _ _ _ hv, read_length hv]

/-- Refinement: over memory, `GetHistory` returns a slice whose elements are
the list that the list-level `ChatSession.GetHistory` computes. -/
theorem GetHistory_refines (mem : Mem) (cs : SessionObj) (extra : Nat) :
    Mem.read (cs.GetHistory mem extra).2 (cs.GetHistory mem extra).1 =
      (cs.abs mem).GetHistory := by
  simp only [SessionObj.GetHistory, goAppend_read _ _ _ _ (valid_nil mem), GetHistory_eq,
    SessionObj.abs]
  simp [Mem.read, Slice.nil]

/-! ## Sessions as append-only logs -/

@[simp] theorem addAll_ID (cs : ChatSession) (ops : List Append) :
    (cs.addAll ops).ID = cs.ID := by
  induction ops generalizing cs with
  | nil => rfl
  | cons a rest ih => simp [ChatSession.addAll, ih, ChatSession.AddMessage]

/-- The message that the `i`-th call of a run appends to a session that
held `n` messages before the run. -/
theorem addAll_Messages (cs : ChatSession) (ops : List Append) :
    (cs.addAll ops).Messages =
      cs.Messages ++ (List.range ops.length).zipWith
        (fun i a => { ID := sprintfID cs.ID (cs.Messages.length + i), Role := a.1,
                      Content := a.2.1, Timestamp := a.2.2 }) ops := by
  induction ops generalizing cs with
  | nil => simp [ChatSession.addAll]
  | cons a rest ih =>
    simp only [ChatSession.addAll, List.length_cons]
    rw [ih, List.range_succ_eq_map]
    simp only [ChatSession.AddMessage, List.length_append, List.length_singleton,
      List.zipWith_cons_cons, List.zipWith_map_left, List.append_assoc, List.singleton_append,
      Nat.add_zero]
    congr 2
    congr 1
    funext i b
    simp [Nat.add_assoc, Nat.add_comm 1 i]

theorem addAll_IDs (cs : ChatSession) (ops : List Append) :
    (cs.addAll ops).Messages.map Message.ID =
      cs.Messages.map Message.ID ++
        (List.range ops.length).map (fun i => sprintfID cs.ID (cs.Messages.length + i)) := by
  rw [addAll_Messages, List.map_append]
  congr 1
  apply List.ext_getElem
  · simp
  · intro i h₁ h₂
    simp

theorem nodup_map_sprintfID (id : String) (n : Nat) :
    ((List.range n).map (fun i => sprintfID id i)).Nodup :=
  (List.nodup_range n).map (fun _ _ h => sprintfID_injective id h)

theorem addAll_frame (ops : List (Append × Nat)) : ∀ (mem : Mem) (cs : SessionObj) {b : Nat},
    b < mem.length → cs.Messages.array ≠ some b →
    Mem.cells (cs.addAll mem ops).2 b = Mem.cells mem b := by
  induction ops with
  | nil => intro mem cs b _ _; rfl
  | cons a rest ih =>
    intro mem cs b hb hne
    have hf := goAppend_frame mem cs.Messages
      [⟨sprintfID cs.ID cs.Messages.len, a.1.1, a.1.2.1, a.1.2.2⟩] a.2 hb hne
    simp only [SessionObj.addAll]
    rw [ih _ _ (by exact hf.2.1) (by exact hf.2.2)]
    exact hf.1

/-- The slice `GetHistory` returns has no cells or sits in the array the
call allocated. -/
theorem GetHistory_array (mem : Mem) (cs : SessionObj) (extra : Nat) (a : Nat)
    (h : (cs.GetHistory mem extra).1.array = some a) :
    a = mem.length ∧ a < (cs.GetHistory mem extra).2.length := by
  unfold SessionObj.GetHistory goAppend at h ⊢
  by_cases hx : (Mem.read mem cs.Messages).length = 0
  · simp [Slice.nil, hx] at h
  · simp only [Slice.nil, hx, if_false] at h ⊢
    have := Option.some.inj h
    simp [← this]

/-! ## The context builder -/

theorem foldl_lines (messages : List Message) (acc : String) :
    messages.foldl
      (fun context msg =>
        if msg.Role = "user" then
          context ++ ("用戶: " ++ msg.Content ++ "\n")
        else if msg.Role = "assistant" then
          context ++ ("助手: " ++ msg.Content ++ "\n")
        else
          context)
      acc =
    acc ++ (messages.filterMap specLine).foldr (fun line rest => line ++ rest) "" := by
  induction messages generalizing acc with
  | nil => simp
  | cons m ms ih =>
    rw [List.foldl_cons, ih]
    by_cases hu : m.Role = "user"
    · simp [specLine, hu, String.append_assoc]
    · by_cases ha : m.Role = "assistant"
      · simp [specLine, hu, ha, String.append_assoc]
      · simp [specLine, hu, ha]

/-! ## Interleavings of `GetSession` -/

/-- The sequential `GetSession` is its read-locked section followed, on a
miss, by its write-locked section. -/
theorem GetSession_eq_sections (sv : Server) (id : String) :
    GetSession sv id =
      match readSection sv id with
      | Phase.returned p => (p, sv)
      | _ => writeSection sv id := by
  unfold GetSession readSection writeSection
  cases h : mapGet sv.chatManager.sessions id <;> simp

theorem writeSection_eq_GetSession (sv : Server) (id : String) :
    writeSection sv id = GetSession sv id := by
  unfold GetSession writeSection
  cases h : mapGet sv.chatManager.sessions id <;> simp

theorem readSection_returned {sv : Server} {id : String} {p : Ptr}
    (h : readSection sv id = Phase.returned p) : mapGet sv.chatManager.sessions id = some p := by
  unfold readSection at h
  cases hm : mapGet sv.chatManager.sessions id with
  | none => simp [hm] at h
  | some q => simp [hm] at h; rw [h]

/-- A registered session stays registered, under the same pointer, through
any `GetSession`. -/
theorem GetSession_mapGet_mono (sv : Server) (id : String) {id' : String} {p : Ptr}
    (h : mapGet sv.chatManager.sessions id' = some p) :
    mapGet (GetSession sv id).2.chatManager.sessions id' = some p := by
  by_cases e : id' = id
  · subst e
    rw [GetSession_of_some h]; exact h
  · rw [GetSession_mapGet_ne sv e]; exact h

theorem step_of_none {c : Config} {i : Nat} (h : c.calls[i]? = none) : step c i = c := by
  simp [step, h]

theorem step_of_start {c : Config} {i : Nat} {id : String}
    (h : c.calls[i]? = some ⟨id, Phase.start⟩) :
    step c i = { c with calls := c.calls.set i ⟨id, readSection c.server id⟩ } := by
  simp [step, h]

theorem step_of_missed {c : Config} {i : Nat} {id : String}
    (h : c.calls[i]? = some ⟨id, Phase.missed⟩) :
    step c i =
      { server := (GetSession c.server id).2,
        calls := c.calls.set i ⟨id, Phase.returned (GetSession c.server id).1⟩ } := by
  simp [step, h, writeSection_eq_GetSession]

theorem step_of_returned {c : Config} {i : Nat} {id : String} {p : Ptr}
    (h : c.calls[i]? = some ⟨id, Phase.returned p⟩) : step c i = c := by
  simp [step, h]

theorem run_cons (c : Config) (i : Nat) (schedule : List Nat) :
    run c (i :: schedule) = run (step c i) schedule := rfl

theorem Agree_launch (sv : Server) (ids : List String) : Agree (launch sv ids) := by
  intro call hc p hp
  simp only [launch, List.mem_map] at hc
  obtain ⟨id, _, rfl⟩ := hc
  cases hp

theorem Agree_step {c : Config} (h : Agree c) (i : Nat) : Agree (step c i) := by
  cases hg : c.calls[i]? with
  | none => rw [step_of_none hg]; exact h
  | some call =>
    obtain ⟨id, ph⟩ := call
    cases ph with
    | start =>
      rw [step_of_start hg]
      intro call hc p hp
      rcases List.mem_or_eq_of_mem_set hc with hc | rfl
      · exact h call hc p hp
      · exact readSection_returned hp
    | missed =>
      rw [step_of_missed hg]
      intro call hc p hp
      rcases List.mem_or_eq_of_mem_set hc with hc | rfl
      · exact GetSession_mapGet_mono _ _ (h call hc p hp)
      · cases hp
        exact GetSession_mapGet_self _ _
    | returned q => rw [step_of_returned hg]; exact h

theorem Agree_run (schedule : List Nat) : ∀ {c : Config}, Agree c → Agree (run c schedule) := by
  induction schedule with
  | nil => intro c h; exact h
  | cons i rest ih => intro c h; exact ih (Agree_step h i)

theorem OneSession_step {sv : Server} {id : String}
    (hnew : mapGet sv.chatManager.sessions id = none) {c : Config}
    (h : OneSession sv id c) (i : Nat) : OneSession sv id (step c i) := by
  have hreg := GetSession_mapGet_self sv id
  cases hg : c.calls[i]? with
  | none => rw [step_of_none hg]; exact h
  | some call =>
    obtain ⟨id', ph⟩ := call
    have hmem : (⟨id', ph⟩ : Call) ∈ c.calls := List.getElem?_mem hg
    have hid : id' = id := by
      rcases h with h | h
      · exact (h.2 _ hmem).1
      · exact (h.2 _ hmem).1
    subst hid
    cases ph with
    | returned q => rw [step_of_returned hg]; exact h
    | start =>
      rw [step_of_start hg]
      rcases h with h | h
      · left
        refine ⟨h.1, ?_⟩
        intro call hc
        rcases List.mem_or_eq_of_mem_set hc with hc | rfl
        · exact h.2 call hc
        · refine ⟨rfl, Or.inr ?_⟩
          simp [readSection, h.1, hnew]
      · right
        refine ⟨h.1, ?_⟩
        intro call hc
        rcases List.mem_or_eq_of_mem_set hc with hc | rfl
        · exact h.2 call hc
        · refine ⟨rfl, Or.inr (Or.inr ?_)⟩
          simp [readSection, h.1, hreg]
    | missed =>
      rw [step_of_missed hg]
      right
      rcases h with h | h
      · refine ⟨by simp [h.1], ?_⟩
        intro call hc
        rcases List.mem_or_eq_of_mem_set hc with hc | rfl
        · rcases (h.2 call hc) with ⟨h1, h2 | h2⟩
          · exact ⟨h1, Or.inl h2⟩
          · exact ⟨h1, Or.inr (Or.inl h2)⟩
        · refine ⟨rfl, Or.inr (Or.inr ?_)⟩
          simp [h.1]
      · have hsame : GetSession c.server id' = ((GetSession sv id').1, (GetSession sv id').2) := by
          rw [h.1]; exact GetSession_of_some hreg
        refine ⟨by simp [hsame], ?_⟩
        intro call hc
        rcases List.mem_or_eq_of_mem_set hc with hc | rfl
        · exact h.2 call hc
        · refine ⟨rfl, Or.inr (Or.inr ?_)⟩
          simp [hsame]

theorem OneSession_run {sv : Server} {id : String}
    (hnew : mapGet sv.chatManager.sessions id = none) (schedule : List Nat) :
    ∀ {c : Config}, OneSession sv id c → OneSession sv id (run c schedule) := by
  induction schedule with
  | nil => intro c h; exact h
  | cons i rest ih => intro c h; exact ih (OneSession_step hnew h i)

theorem OneSession_launch (sv : Server) (id : String) (K : Nat) :
    OneSession sv id (launch sv (List.replicate K id)) := by
  left
  refine ⟨rfl, ?_⟩
  intro call hc
  simp only [launch, List.mem_map] at hc
  obtain ⟨id', hid', rfl⟩ := hc
  exact ⟨List.eq_of_mem_replicate hid', Or.inl rfl⟩

theorem step_calls_length (c : Config) (i : Nat) :
    (step c i).calls.length = c.calls.length := by
  cases hg : c.calls[i]? with
  | none => rw [step_of_none hg]
  | some call =>
    obtain ⟨id, ph⟩ := call
    cases ph with
    | start => rw [step_of_start hg]; simp
    | missed => rw [step_of_missed hg]; simp
    | returned q => rw [step_of_returned hg]

theorem run_calls_length (schedule : List Nat) :
    ∀ c : Config, (run c schedule).calls.length = c.calls.length := by
  induction schedule with
  | nil => intro c; rfl
  | cons i rest ih => intro c; rw [run_cons, ih, step_calls_length]

/-- A step of call `i` leaves every other call where it is and takes call
`i` one section further, unless it has returned. -/
theorem step_progress (c : Config) (i j : Nat) {call : Call} (h : c.calls[j]? = some call) :
    ∃ call', (step c i).calls[j]? = some call' ∧
      min 2 (call.phase.rank + (if i = j then 1 else 0)) ≤ call'.phase.rank := by
  by_cases hij : i = j
  · subst hij
    obtain ⟨id, ph⟩ := call
    have hlt : i < c.calls.length := by
      by_contra hn
      rw [List.getElem?_eq_none (Nat.le_of_not_lt hn)] at h
      cases h
    cases ph with
    | start =>
      rw [step_of_start h]
      refine ⟨⟨id, readSection c.server id⟩, List.getElem?_set_self hlt, ?_⟩
      simp only [Phase.rank, if_true]
      unfold readSection
      cases mapGet c.server.chatManager.sessions id <;> simp [Phase.rank]
    | missed =>
      rw [step_of_missed h]
      exact ⟨⟨id, Phase.returned (GetSession c.server id).1⟩, List.getElem?_set_self hlt,
        by simp [Phase.rank]⟩
    | returned q =>
      rw [step_of_returned h]
      exact ⟨_, h, by simp [Phase.rank]⟩
  · refine ⟨call, ?_, by simp [hij]⟩
    cases hg : c.calls[i]? with
    | none => rw [step_of_none hg]; exact h
    | some call₀ =>
      obtain ⟨id, ph⟩ := call₀
      cases ph with
      | start => rw [step_of_start hg]; simp [List.getElem?_set_ne hij, h]
      | missed => rw [step_of_missed hg]; simp [List.getElem?_set_ne hij, h]
      | returned q => rw [step_of_returned hg]; exact h

/-- A call that the schedule picks `n` times has passed `n` sections, or
has returned. -/
theorem run_progress (schedule : List Nat) : ∀ (c : Config) (j : Nat) {call : Call},
    c.calls[j]? = some call →
    ∃ call', (run c schedule).calls[j]? = some call' ∧
      min 2 (call.phase.rank + schedule.count j) ≤ call'.phase.rank := by
  induction schedule with
  | nil =>
    intro c j call h
    exact ⟨call, h, by simp⟩
  | cons i rest ih =>
    intro c j call h
    obtain ⟨call₁, h₁, hr₁⟩ := step_progress c i j h
    obtain ⟨call₂, h₂, hr₂⟩ := ih (step c i) j h₁
    refine ⟨call₂, by rw [run_cons]; exact h₂, ?_⟩
    rw [List.count_cons]
    by_cases hij : i = j
    · simp only [hij, if_true, beq_self_eq_true] at hr₁ ⊢
      omega
    · have hb : (i == j) = false := by simpa using hij
      simp only [hij, if_false, hb, Bool.false_eq_true, Nat.add_zero] at hr₁ ⊢
      omega

theorem rank_two {ph : Phase} (h : 2 ≤ ph.rank) : ∃ p, ph = Phase.returned p := by
  cases ph with
  | start => simp [Phase.rank] at h
  | missed => simp [Phase.rank] at h
  | returned p => exact ⟨p, rfl⟩

/-- Once the schedule has picked each of the `K` calls twice, every call has
returned the session that the sequential `GetSession` returns. -/
theorem run_complete {sv : Server} {id : String}
    (hnew : mapGet sv.chatManager.sessions id = none) (K : Nat) (schedule : List Nat)
    (hfair : ∀ i, i < K → 2 ≤ schedule.count i) :
    (run (launch sv (List.replicate K id)) schedule).calls =
      List.replicate K ⟨id, Phase.returned (GetSession sv id).1⟩ := by
  have hinv := OneSession_run hnew schedule (OneSession_launch sv id K)
  have hlen : (run (launch sv (List.replicate K id)) schedule).calls.length = K := by
    rw [run_calls_length]; simp [launch]
  apply List.ext_getElem?
  intro j
  by_cases hj : j < K
  · have h0 : (launch sv (List.replicate K id)).calls[j]? = some ⟨id, Phase.start⟩ := by
      simp [launch, List.getElem?_replicate, hj]
    obtain ⟨call', hc, hr⟩ := run_progress schedule _ j h0
    have h2 : 2 ≤ call'.phase.rank := by
      have := hfair j hj
      have h0r : Phase.start.rank = 0 := rfl
      rw [h0r] at hr
      omega
    obtain ⟨p, hp⟩ := rank_two h2
    have hmem := List.getElem?_mem hc
    have hcall : call' = ⟨id, Phase.returned (GetSession sv id).1⟩ := by
      obtain ⟨id', ph⟩ := call'
      simp only at hp
      subst hp
      rcases hinv with h | h
      · rcases (h.2 _ hmem).2 with e | e <;> cases e
      · have hid := (h.2 _ hmem).1
        simp only at hid
        subst hid
        rcases (h.2 _ hmem).2 with e | e | e
        · cases e
        · cases e
        · simp only at e
          rw [e]
    rw [hc, hcall]
    simp [List.getElem?_replicate, hj]
  · rw [List.getElem?_eq_none (by omega), List.getElem?_eq_none (by simp; omega)]

/-! ## The environment loader -/

theorem LookupEnv_empty_key (env : Environ) : LookupEnv env "" = none := by
  cases env with
  | nil => rfl
  | cons e rest => obtain ⟨k, v⟩ := e; simp [LookupEnv]

theorem LookupEnv_filter_ne (env : Environ) {key k : String} (h : k ≠ key) :
    LookupEnv (env.filter (fun e => decide (e.1 ≠ key))) k = LookupEnv env k := by
  induction env with
  | nil => rfl
  | cons e rest ih =>
    obtain ⟨k₀, v₀⟩ := e
    by_cases hk : k₀ = key
    · subst hk
      have hne : ¬ k₀ = k := fun e => h e.symm
      simp only [List.filter_cons, ne_eq, not_true_eq_false, decide_False, Bool.false_eq_true,
        if_false, LookupEnv, hne, ih]
      by_cases h0 : k = ""
      · rw [h0, LookupEnv_empty_key]; simp
      · simp [h0]
    · simp only [List.filter_cons, ne_eq, hk, not_false_eq_true, decide_True, if_true,
        LookupEnv, ih]

/-- Setting one variable leaves the others as they are. -/
theorem LookupEnv_Setenv_ne (env : Environ) {key k : String} (value : String) (h : k ≠ key) :
    LookupEnv (Setenv env key value) k = LookupEnv env k := by
  unfold Setenv
  split
  · rfl
  · have hne : ¬ key = k := fun e => h e.symm
    simp only [LookupEnv, hne, if_false, LookupEnv_filter_ne env h]
    by_cases h0 : k = ""
    · rw [h0, LookupEnv_empty_key]; simp
    · simp [h0]

/-- One line of the file leaves every variable with a non-empty value as it
is. -/
theorem loadLine_frame (env : Environ) (text : String) {k v : String}
    (h : LookupEnv env k = some v) (hv : v ≠ "") :
    LookupEnv (loadLine env text) k = some v := by
  unfold loadLine
  simp only
  split
  · exact h
  · split
    · exact h
    · split
      · rename_i parts _ hget
        have hne : k ≠ TrimSpace ⟨parts.1⟩ := by
          intro e
          rw [← e] at hget
          simp only [Getenv, h, Option.getD_some] at hget
          exact hv hget
        rw [LookupEnv_Setenv_ne env _ hne]
        exact h
      · exact h

theorem loadEnvFile_frame (env : Environ) (file : Option (List String)) {k v : String}
    (h : LookupEnv env k = some v) (hv : v ≠ "") :
    LookupEnv (loadEnvFile env file) k = some v := by
  cases file with
  | none => exact h
  | some lines =>
    simp only [loadEnvFile]
    induction lines generalizing env with
    | nil => exact h
    | cons l rest ih => exact ih (loadLine env l) (loadLine_frame env l h hv)

/-! ## The prompt formatter -/

/-- Text without a percent sign passes through the formatter unchanged. -/
theorem formatLoop_of_not_mem (l : List Char) (h : '%' ∉ l) : formatLoop 0 l = l := by
  induction l with
  | nil => rfl
  | cons c cs ih =>
    have hc : ¬ c = '%' := fun e => h (by rw [e]; exact List.mem_cons_self _ _)
    have hcs : '%' ∉ cs := fun e => h (List.mem_cons_of_mem _ e)
    simp only [formatLoop, hc, if_false, ih hcs]

theorem WithPrompt_of_not_mem (text : String) (h : '%' ∉ text.data) : WithPrompt text = text := by
  simp only [WithPrompt, Sprintf0, formatLoop_of_not_mem _ h]

theorem formatLoop_skip (l : List Char) : ∀ k, formatLoop k l = formatLoop 0 (l.drop k) := by
  induction l with
  | nil => intro k; cases k <;> rfl
  | cons c cs ih =>
    intro k
    cases k with
    | zero => rfl
    | succ k => simp only [formatLoop, List.drop_succ_cons, ih k]

theorem parsenum_suffix (l : List Char) : ∀ (num : Nat) (isnum : Bool),
    (parsenum num isnum l).2.2 <:+ l := by
  induction l with
  | nil => intro num isnum; exact List.suffix_refl _
  | cons c cs ih =>
    intro num isnum
    simp only [parsenum]
    split
    · split
      · exact List.nil_suffix
      · exact List.IsSuffix.trans (ih _ _) (List.suffix_cons _ _)
    · exact List.suffix_refl _

theorem splitBracket_suffix (l : List Char) : ∀ {inner after : List Char},
    splitBracket l = some (inner, after) → after <:+ l := by
  induction l with
  | nil => intro inner after h; simp [splitBracket] at h
  | cons c cs ih =>
    intro inner after h
    simp only [splitBracket] at h
    split at h
    · simp only [Option.some.injEq, Prod.mk.injEq] at h
      rw [← h.2]
      exact List.suffix_cons _ _
    · cases hs : splitBracket cs with
      | none => simp [hs] at h
      | some r =>
        obtain ⟨i, a⟩ := r
        simp only [hs, Option.map_some', Option.some.injEq, Prod.mk.injEq] at h
        rw [← h.2]
        exact List.IsSuffix.trans (ih hs) (List.suffix_cons _ _)

theorem parseArgNumber_suffix (s : List Char) : (parseArgNumber s).1 <:+ s := by
  unfold parseArgNumber
  split
  · exact List.drop_suffix _ _
  · split
    · rename_i inner after hs
      exact List.IsSuffix.trans (splitBracket_suffix _ hs) (List.drop_suffix _ _)
    · exact List.drop_suffix _ _

theorem argNumber_suffix (v : VerbState) : (argNumber v).rest <:+ v.rest := by
  unfold argNumber
  split
  · split
    · exact parseArgNumber_suffix _
    · exact List.suffix_refl _
  · exact List.suffix_refl _

theorem verbWidth_suffix (v : VerbState) : (verbWidth v).rest <:+ v.rest := by
  unfold verbWidth
  split
  · rename_i c cs hv
    split
    · rw [hv]; exact List.suffix_cons _ _
    · exact parsenum_suffix _ _ _
  · exact List.suffix_refl _

theorem verbPrecValue_suffix (v : VerbState) : (verbPrecValue v).rest <:+ v.rest := by
  unfold verbPrecValue
  split
  · rename_i c cs hv
    split
    · rw [hv]; exact List.suffix_cons _ _
    · exact parsenum_suffix _ _ _
  · exact List.suffix_refl _

theorem verbPrec_suffix (v : VerbState) : (verbPrec v).rest <:+ v.rest := by
  unfold verbPrec
  split
  · rename_i c cs hv
    split
    · rw [hv]
      exact List.IsSuffix.trans
        (List.IsSuffix.trans (verbPrecValue_suffix _) (argNumber_suffix _))
        (List.suffix_cons _ _)
    · exact List.suffix_refl _
  · exact List.suffix_refl _

theorem verbIndex_suffix (v : VerbState) : (verbIndex v).rest <:+ v.rest := by
  unfold verbIndex
  split
  · exact List.suffix_refl _
  · exact argNumber_suffix _

theorem verbEnd_suffix (v : VerbState) : (verbEnd v).2 <:+ v.rest := by
  unfold verbEnd
  split
  · exact List.nil_suffix
  · rename_i c rest hv
    rw [hv]
    split
    · exact List.suffix_cons _ _
    · split <;> exact List.suffix_cons _ _

/-- A verb consumes a part of the format text from its front. -/
theorem verb_suffix (s : List Char) : (verb s).2 <:+ s := by
  unfold verb
  refine List.IsSuffix.trans (verbEnd_suffix _) ?_
  refine List.IsSuffix.trans (verbIndex_suffix _) ?_
  refine List.IsSuffix.trans (verbPrec_suffix _) ?_
  refine List.IsSuffix.trans (verbWidth_suffix _) ?_
  refine List.IsSuffix.trans (argNumber_suffix _) ?_
  exact List.dropWhile_suffix _

/-- After a verb the format loop goes on with the text the verb left. -/
theorem formatLoop_percent (cs : List Char) :
    formatLoop 0 ('%' :: cs) = (verb cs).1 ++ formatLoop 0 (verb cs).2 := by
  obtain ⟨pre, hpre⟩ := verb_suffix cs
  have hdrop : cs.drop (cs.length - (verb cs).2.length) = (verb cs).2 := by
    have hlen : cs.length - (verb cs).2.length = pre.length := by
      have := congrArg List.length hpre
      simp only [List.length_append] at this
      omega
    rw [hlen]
    conv_lhs => rw [← hpre]
    exact List.drop_left _ _
  simp only [formatLoop, if_true]
  rw [formatLoop_skip cs, hdrop]

/-- The context builder agrees with the specification's rendering. -/
theorem buildContextFromHistory_eq (messages : List Message) :
    buildContextFromHistory messages = specContext messages := by
  cases messages with
  | nil => rfl
  | cons m ms =>
    simp only [buildContextFromHistory, List.length_cons, Nat.succ_ne_zero, if_false,
      specContext]
    rw [foldl_lines]

/-- The context rendered from one user turn and the assistant's reply. -/
theorem buildContextFromHistory_turn (id₁ id₂ A r : String) (t₁ t₂ : Time) :
    buildContextFromHistory [⟨id₁, "user", A, t₁⟩, ⟨id₂, "assistant", r, t₂⟩] =
      "對話歷史:\n用戶: " ++ A ++ "\n助手: " ++ r ++ "\n\n請根據以上對話歷史繼續對話：" := by
  have hne : ¬ ("assistant" = "user") := by decide
  rw [buildContextFromHistory_eq]
  simp only [specContext, List.filterMap_cons, List.filterMap_nil, specLine, if_true, hne,
    if_false, List.foldr_cons, List.foldr_nil]
  apply String.ext
  simp [String.data_append]

/-! ## Claims -/

/-- C1. Session isolation: in every reachable (well-formed) store, for
distinct ids `A ≠ B`, resolving `A` with `GetSession` and running any
sequence of `AddMessage` calls on the session obtained leaves the history
read for `B` as it was; and the same with `A` and `B` exchanged. -/
theorem session_isolation (sv : Server) (hwf : sv.WF) (A B : String) (hAB : A ≠ B)
    (ops : List Append) :
    historyOf (addAll (GetSession sv A).2 (GetSession sv A).1 ops) B = historyOf sv B ∧
    historyOf (addAll (GetSession sv B).2 (GetSession sv B).1 ops) A = historyOf sv A :=
  ⟨historyOf_addAll_other hwf hAB ops, historyOf_addAll_other hwf (Ne.symm hAB) ops⟩

/-- Witness for C1: in the sample store, two appends to `a` leave the
history of `b` empty, and two appends to `b` leave the history of `a`. -/
theorem session_isolation_witness :
    historyOf (addAll (GetSession sampleServer "a").2 (GetSession sampleServer "a").1
        [("assistant", "hello", 2), ("user", "bye", 3)]) "b" = historyOf sampleServer "b" ∧
    historyOf (addAll (GetSession sampleServer "b").2 (GetSession sampleServer "b").1
        [("assistant", "hello", 2), ("user", "bye", 3)]) "a" = historyOf sampleServer "a" :=
  session_isolation sampleServer (by decide) "a" "b" (by decide)
    [("assistant", "hello", 2), ("user", "bye", 3)]

/-- C2. `AddMessage(role, content)` on a session with id `s` holding `n`
messages returns a message whose ID is `s`, an underscore and the decimal
numeral of `n`, with the given role and content (and the clock reading as
timestamp); afterwards the session holds the old messages followed by
that message, so its first `n` messages are unchanged and its length is
`n + 1`; the session id is unchanged. -/
theorem AddMessage_spec (cs : ChatSession) (role content : String) (now : Time) :
    (cs.AddMessage role content now).1 =
      { ID := cs.ID ++ "_" ++ (Nat.toDigits 10 cs.Messages.length).asString,
        Role := role, Content := content, Timestamp := now } ∧
    (cs.AddMessage role content now).2.Messages =
      cs.Messages ++ [(cs.AddMessage role content now).1] ∧
    (cs.AddMessage role content now).2.Messages.take cs.Messages.length = cs.Messages ∧
    (cs.AddMessage role content now).2.Messages.length = cs.Messages.length + 1 ∧
    (cs.AddMessage role content now).2.ID = cs.ID := by
  refine ⟨rfl, rfl, ?_, ?_, rfl⟩
  · simp [ChatSession.AddMessage]
  · simp [ChatSession.AddMessage]

/-- C3. `N` serialized `AddMessage` calls (any roles, contents and clock
readings) on the session that `GetSession` creates for an unregistered id
`s` give a history of exactly `N` messages whose ids are, in order,
`s_0, s_1, …, s_(N-1)`: position-derived, without gaps, pairwise distinct;
the roles, contents and timestamps are those of the calls, in call order. -/
theorem fresh_session_ids (sv : Server) (s : String)
    (hnew : mapGet sv.chatManager.sessions s = none) (ops : List Append) :
    (historyOf (addAll (GetSession sv s).2 (GetSession sv s).1 ops) s).length = ops.length ∧
    (historyOf (addAll (GetSession sv s).2 (GetSession sv s).1 ops) s).map Message.ID =
      (List.range ops.length).map (fun i => s ++ "_" ++ toString i) ∧
    (∀ i m, (historyOf (addAll (GetSession sv s).2 (GetSession sv s).1 ops) s).get? i = some m →
      m.ID = s ++ "_" ++ toString i) ∧
    ((historyOf (addAll (GetSession sv s).2 (GetSession sv s).1 ops) s).map Message.ID).Nodup ∧
    (historyOf (addAll (GetSession sv s).2 (GetSession sv s).1 ops) s).map
      (fun m => (m.Role, m.Content, m.Timestamp)) = ops := by
  have hreg : mapGet (addAll (GetSession sv s).2 (GetSession sv s).1 ops).chatManager.sessions s
      = some (GetSession sv s).1 := by
    rw [addAll_chatManager]; exact GetSession_mapGet_self sv s
  have hH : historyOf (addAll (GetSession sv s).2 (GetSession sv s).1 ops) s =
      (ChatSession.addAll { ID := s, Messages := [] } ops).Messages := by
    rw [historyOf_of_some hreg]
    rw [GetSession_of_none hnew]
    rw [addAll_deref_self _ _ (by simp), deref_append_length]
  have hids := addAll_IDs { ID := s, Messages := [] } ops
  simp only [List.map_nil, List.nil_append, List.length_nil, Nat.zero_add] at hids
  rw [hH]
  refine ⟨?_, hids, ?_, ?_, ?_⟩
  · simpa using congrArg List.length hids
  · intro i m hm
    have h1 : ((ChatSession.addAll { ID := s, Messages := [] } ops).Messages.map Message.ID).get? i
        = some m.ID := by
      simp only [List.get?_eq_getElem?] at hm ⊢
      simp [hm]
    rw [hids] at h1
    simp only [List.get?_eq_getElem?, List.getElem?_map] at h1
    cases hr : (List.range ops.length)[i]? with
    | none => simp [hr] at h1
    | some j =>
      have hj : j = i := by
        by_cases hi : i < ops.length
        · rw [List.getElem?_range hi] at hr; exact (Option.some.inj hr).symm
        · rw [List.getElem?_eq_none (by simpa using hi)] at hr; cases hr
      simp [hr, hj, sprintfID] at h1
      exact h1.symm
  · rw [hids]; exact nodup_map_sprintfID s ops.length
  · rw [addAll_Messages]
    simp only [List.nil_append]
    apply List.ext_getElem
    · simp
    · intro i h₁ h₂
      simp

/-- Witness for C3: three appends to the session created for `"s"` in the
empty store. -/
theorem fresh_session_ids_witness :
    (historyOf (addAll (GetSession NewChatManager "s").2 (GetSession NewChatManager "s").1
      [("user", "A", 1), ("assistant", "r", 2), ("user", "B", 3)]) "s").map Message.ID =
      ["s_0", "s_1", "s_2"] :=
  (fresh_session_ids NewChatManager "s" (by decide)
    [("user", "A", 1), ("assistant", "r", 2), ("user", "B", 3)]).2.1

/-- C4. `GetSession(id)`: when a session is registered under `id` it is
returned and the store is unchanged; otherwise a newly allocated session
with `ID = id` and no messages is returned, the store afterwards maps `id`
to it, maps every other id as before, and every session allocated before
is unchanged.  In either case a second `GetSession(id)` returns the same
session and changes nothing. -/
theorem GetSession_spec (sv : Server) (id : String) :
    (∀ p, mapGet sv.chatManager.sessions id = some p → GetSession sv id = (p, sv)) ∧
    (mapGet sv.chatManager.sessions id = none →
      (GetSession sv id).1 = sv.heap.length ∧
      (GetSession sv id).2.heap = sv.heap ++ [{ ID := id, Messages := [] }] ∧
      (GetSession sv id).2.deref (GetSession sv id).1 = { ID := id, Messages := [] } ∧
      mapGet (GetSession sv id).2.chatManager.sessions id = some (GetSession sv id).1 ∧
      (∀ id', id' ≠ id →
        mapGet (GetSession sv id).2.chatManager.sessions id' =
          mapGet sv.chatManager.sessions id') ∧
      (∀ q, q < sv.heap.length → (GetSession sv id).2.deref q = sv.deref q)) ∧
    GetSession (GetSession sv id).2 id = ((GetSession sv id).1, (GetSession sv id).2) := by
  refine ⟨fun p h => GetSession_of_some h, ?_, GetSession_of_some (GetSession_mapGet_self sv id)⟩
  intro h
  refine ⟨?_, ?_, ?_, GetSession_mapGet_self sv id, fun id' h' => GetSession_mapGet_ne sv h',
    fun q hq => GetSession_deref_of_lt sv id hq⟩
  · rw [GetSession_of_none h]
  · rw [GetSession_of_none h]
  · rw [GetSession_of_none h]; exact deref_append_length _ _ _

/-- Witness for C4: in the sample store, resolving `a` returns its pointer
and the store as it was, and resolving the unregistered `c` allocates the
next pointer. -/
theorem GetSession_spec_witness :
    GetSession sampleServer "a" = (0, sampleServer) ∧
    (GetSession sampleServer "c").1 = sampleServer.heap.length :=
  ⟨(GetSession_spec sampleServer "a").1 0 (by decide),
   ((GetSession_spec sampleServer "c").2.1 (by decide)).1⟩

/-- C5. `GetHistory` returns an independent copy of the session's message
sequence.  For a session whose slice is valid in memory: the returned slice
holds the session's messages in order; the call leaves the session's
messages as they were; whatever the caller then does with the returned
slice (element assignments, appends, reslicing, in any number) the
session's messages, and so the result of a later `GetHistory`, stay the
same; and any run of later `AddMessage` calls leaves the returned slice
equal to the history at the time it was taken. -/
theorem GetHistory_independent (mem : Mem) (cs : SessionObj) (hv : mem.valid cs.Messages)
    (extra : Nat) :
    Mem.read (cs.GetHistory mem extra).2 (cs.GetHistory mem extra).1 = Mem.read mem cs.Messages ∧
    Mem.read (cs.GetHistory mem extra).2 cs.Messages = Mem.read mem cs.Messages ∧
    (∀ (muts : List Mutation) (extra' : Nat),
      Mem.read (mutateAll (cs.GetHistory mem extra).2 (cs.GetHistory mem extra).1 muts).2
          cs.Messages = Mem.read mem cs.Messages ∧
      Mem.read
          (cs.GetHistory
            (mutateAll (cs.GetHistory mem extra).2 (cs.GetHistory mem extra).1 muts).2 extra').2
          (cs.GetHistory
            (mutateAll (cs.GetHistory mem extra).2 (cs.GetHistory mem extra).1 muts).2 extra').1 =
        Mem.read mem cs.Messages) ∧
    (∀ (ops : List (Append × Nat)),
      Mem.read (cs.addAll (cs.GetHistory mem extra).2 ops).2 (cs.GetHistory mem extra).1 =
        Mem.read mem cs.Messages) := by
  have hcopy : Mem.read (cs.GetHistory mem extra).2 (cs.GetHistory mem extra).1 =
      Mem.read mem cs.Messages := by
    rw [GetHistory_refines]; simp [SessionObj.abs]
  have hframe : ∀ a, cs.Messages.array = some a →
      Mem.cells (cs.GetHistory mem extra).2 a = Mem.cells mem a ∧
      a < (cs.GetHistory mem extra).2.length ∧
      (cs.GetHistory mem extra).1.array ≠ some a := by
    intro a ha
    have hlt : a < mem.length := by
      simp only [Mem.valid, ha] at hv
      exact hv.1
    exact goAppend_frame mem Slice.nil _ extra hlt (by simp [Slice.nil])
  have hsame : Mem.read (cs.GetHistory mem extra).2 cs.Messages = Mem.read mem cs.Messages :=
    read_congr _ (fun a ha => (hframe a ha).1)
  refine ⟨hcopy, hsame, ?_, ?_⟩
  · intro muts extra'
    have hm : Mem.read (mutateAll (cs.GetHistory mem extra).2 (cs.GetHistory mem extra).1 muts).2
        cs.Messages = Mem.read mem cs.Messages := by
      rw [← hsame]
      exact read_congr _ (fun a ha => mutateAll_frame muts _ _ (hframe a ha).2.1 (hframe a ha).2.2)
    refine ⟨hm, ?_⟩
    rw [GetHistory_refines]
    simpa [SessionObj.abs] using hm
  · intro ops
    rw [← hcopy]
    apply read_congr
    intro b hb
    have hb' := GetHistory_array mem cs extra b hb
    apply addAll_frame ops _ _ hb'.2
    intro hcs
    have hlt : b < mem.length := by
      simp only [Mem.valid, hcs] at hv
      exact hv.1
    omega

/-- Witness for C5: in the sample memory the caller overwrites and extends
the copy it got, and the session still reads its two messages; the session
then appends, and the copy still reads the two messages. -/
theorem GetHistory_independent_witness :
    Mem.read (mutateAll (sampleObj.GetHistory sampleMem 1).2 (sampleObj.GetHistory sampleMem 1).1
        [Mutation.assign 0 default, Mutation.append [default, default] 3,
         Mutation.reslice 1]).2 sampleObj.Messages = Mem.read sampleMem sampleObj.Messages ∧
    Mem.read (sampleObj.addAll (sampleObj.GetHistory sampleMem 1).2
        [(("user", "x", 3), 0), (("assistant", "y", 4), 0)]).2
        (sampleObj.GetHistory sampleMem 1).1 = Mem.read sampleMem sampleObj.Messages :=
  ⟨((GetHistory_independent sampleMem sampleObj (by decide) 1).2.2.1
      [Mutation.assign 0 default, Mutation.append [default, default] 3, Mutation.reslice 1] 0).1,
   (GetHistory_independent sampleMem sampleObj (by decide) 1).2.2.2
      [(("user", "x", 3), 0), (("assistant", "y", 4), 0)]⟩

/-- C6. `buildContextFromHistory` equals the specification's rendering on
every message sequence: the empty string for the empty sequence; otherwise
the header line, then in the original order one `用戶:` line per `user`
message and one `助手:` line per `assistant` message, messages of any other
role being omitted, then the trailing instruction.  On the sequence
`[("user","hi"),("assistant","hello")]` the result is the header, the two
labelled lines and the trailer. -/
theorem buildContextFromHistory_eq_spec :
    (∀ messages : List Message, buildContextFromHistory messages = specContext messages) ∧
    buildContextFromHistory [] = "" ∧
    (∀ id₁ id₂ t₁ t₂,
      buildContextFromHistory [⟨id₁, "user", "hi", t₁⟩, ⟨id₂, "assistant", "hello", t₂⟩] =
        "對話歷史:\n用戶: hi\n助手: hello\n\n請根據以上對話歷史繼續對話：") := by
  have h : ∀ messages : List Message,
      buildContextFromHistory messages = specContext messages := by
    intro messages
    cases messages with
    | nil => rfl
    | cons m ms =>
      simp only [buildContextFromHistory, List.length_cons, Nat.succ_ne_zero, if_false,
        specContext]
      rw [foldl_lines]
  refine ⟨h, rfl, ?_⟩
  intro id₁ id₂ t₁ t₂
  rw [h]
  simp only [specContext, List.filterMap_cons, List.filterMap_nil, specLine, if_true,
    List.foldr_cons, List.foldr_nil]
  decide

/-- C7. The `POST /chat` handler on a bound request with message `m` whose
(effective) session has prior history `H`, in a well-formed store.  The
text it builds is `buildContextFromHistory H` (the specification's
rendering of `H`, which holds the prior turns and not the new one)
followed by the raw `m`; but it hands this text to `ai.WithPrompt` as a
format string, so the one prompt the service receives is that text passed
through `fmt.Sprintf`.  When the service answers with `r`, the handler
answers 200 with the session id and the assistant message, and the history
is then `H`, the user message `m`, the assistant message `r`.  Text without
a percent sign reaches the service unchanged.  Two sequential calls with
messages `A` then `B` under a new non-empty id `s` leave the history
`[user A, assistant r₁, user B, assistant r₂]`, and the text of the second
call is the header, the line for `A`, the line for `r₁`, the trailer, then
`B`.  A message with a percent sign does not reach the service as it is:
for `%d` the service receives `%!d(MISSING)`, for `50%` it receives
`50%!(NOVERB)`. -/
theorem postChat_prompt_formatted :
    (∀ (sv : Server), sv.WF →
      ∀ (generate : String → Option String) (req : ChatRequest) (nano tUser tAssistant : Time)
        (r : String),
      generate (WithPrompt
        (buildContextFromHistory (historyOf sv (effectiveSessionID req nano)) ++
          req.Message)) = some r →
      (postChat generate sv (some req) nano tUser tAssistant).prompts =
        [WithPrompt (buildContextFromHistory (historyOf sv (effectiveSessionID req nano)) ++
          req.Message)] ∧
      buildContextFromHistory (historyOf sv (effectiveSessionID req nano)) =
        specContext (historyOf sv (effectiveSessionID req nano)) ∧
      (postChat generate sv (some req) nano tUser tAssistant).response =
        some ⟨200, Body.chat
          { SessionID := effectiveSessionID req nano,
            Message := ⟨sprintfID (effectiveSessionID req nano)
              ((historyOf sv (effectiveSessionID req nano)).length + 1), "assistant", r,
              tAssistant⟩ }⟩ ∧
      historyOf (postChat generate sv (some req) nano tUser tAssistant).server
          (effectiveSessionID req nano) =
        historyOf sv (effectiveSessionID req nano) ++
          [⟨sprintfID (effectiveSessionID req nano)
              (historyOf sv (effectiveSessionID req nano)).length, "user", req.Message, tUser⟩,
           ⟨sprintfID (effectiveSessionID req nano)
              ((historyOf sv (effectiveSessionID req nano)).length + 1), "assistant", r,
              tAssistant⟩]) ∧
    (∀ text : String, '%' ∉ text.data → WithPrompt text = text) ∧
    (∀ (sv : Server), sv.WF →
      ∀ (gen₁ gen₂ : String → Option String) (s A B r₁ r₂ : String)
        (n₁ n₂ t₁ t₂ t₃ t₄ : Time),
      s ≠ "" → mapGet sv.chatManager.sessions s = none →
      gen₁ (WithPrompt A) = some r₁ →
      gen₂ (WithPrompt ("對話歷史:\n用戶: " ++ A ++ "\n助手: " ++ r₁ ++
        "\n\n請根據以上對話歷史繼續對話：" ++ B)) = some r₂ →
      (postChat gen₁ sv (some ⟨s, A⟩) n₁ t₁ t₂).prompts = [WithPrompt A] ∧
      (postChat gen₂ (postChat gen₁ sv (some ⟨s, A⟩) n₁ t₁ t₂).server (some ⟨s, B⟩)
          n₂ t₃ t₄).prompts =
        [WithPrompt ("對話歷史:\n用戶: " ++ A ++ "\n助手: " ++ r₁ ++
          "\n\n請根據以上對話歷史繼續對話：" ++ B)] ∧
      historyOf (postChat gen₂ (postChat gen₁ sv (some ⟨s, A⟩) n₁ t₁ t₂).server (some ⟨s, B⟩)
          n₂ t₃ t₄).server s =
        [⟨sprintfID s 0, "user", A, t₁⟩, ⟨sprintfID s 1, "assistant", r₁, t₂⟩,
         ⟨sprintfID s 2, "user", B, t₃⟩, ⟨sprintfID s 3, "assistant", r₂, t₄⟩]) ∧
    ((postChat (fun _ => some "r2")
        (postChat (fun _ => some "r1") NewChatManager (some ⟨"s", "A"⟩) 0 1 2).server
        (some ⟨"s", "B"⟩) 0 3 4).prompts =
      ["對話歷史:\n用戶: A\n助手: r1\n\n請根據以上對話歷史繼續對話：B"] ∧
     historyOf (postChat (fun _ => some "r2")
        (postChat (fun _ => some "r1") NewChatManager (some ⟨"s", "A"⟩) 0 1 2).server
        (some ⟨"s", "B"⟩) 0 3 4).server "s" =
      [⟨"s_0", "user", "A", 1⟩, ⟨"s_1", "assistant", "r1", 2⟩,
       ⟨"s_2", "user", "B", 3⟩, ⟨"s_3", "assistant", "r2", 4⟩]) ∧
    ((postChat (fun _ => some "reply") NewChatManager (some ⟨"s", "%d"⟩) 0 1 2).prompts =
      ["%!d(MISSING)"] ∧
     historyOf (postChat (fun _ => some "reply") NewChatManager (some ⟨"s", "%d"⟩) 0 1 2).server
        "s" = [⟨"s_0", "user", "%d", 1⟩, ⟨"s_1", "assistant", "reply", 2⟩] ∧
     (postChat (fun _ => some "reply") NewChatManager (some ⟨"s", "50%"⟩) 0 1 2).prompts =
      ["50%!(NOVERB)"]) := by
  have gen : ∀ (sv : Server), sv.WF →
      ∀ (generate : String → Option String) (req : ChatRequest) (nano tUser tAssistant : Time)
        (r : String),
      generate (WithPrompt
        (buildContextFromHistory (historyOf sv (effectiveSessionID req nano)) ++
          req.Message)) = some r →
      (postChat generate sv (some req) nano tUser tAssistant).prompts =
        [WithPrompt (buildContextFromHistory (historyOf sv (effectiveSessionID req nano)) ++
          req.Message)] ∧
      buildContextFromHistory (historyOf sv (effectiveSessionID req nano)) =
        specContext (historyOf sv (effectiveSessionID req nano)) ∧
      (postChat generate sv (some req) nano tUser tAssistant).response =
        some ⟨200, Body.chat
          { SessionID := effectiveSessionID req nano,
            Message := ⟨sprintfID (effectiveSessionID req nano)
              ((historyOf sv (effectiveSessionID req nano)).length + 1), "assistant", r,
              tAssistant⟩ }⟩ ∧
      historyOf (postChat generate sv (some req) nano tUser tAssistant).server
          (effectiveSessionID req nano) =
        historyOf sv (effectiveSessionID req nano) ++
          [⟨sprintfID (effectiveSessionID req nano)
              (historyOf sv (effectiveSessionID req nano)).length, "user", req.Message, tUser⟩,
           ⟨sprintfID (effectiveSessionID req nano)
              ((historyOf sv (effectiveSessionID req nano)).length + 1), "assistant", r,
              tAssistant⟩] := by
    intro sv hwf generate req nano tUser tAssistant r hr
    have h2 := historyOf_AddMessage_twice hwf (effectiveSessionID req nano)
      "user" req.Message "assistant" r tUser tAssistant
    rw [postChat_some hwf, hr]
    exact ⟨rfl, buildContextFromHistory_eq _, by simp only [h2.1]; rfl, h2.2⟩
  refine ⟨gen, WithPrompt_of_not_mem, ?_, ⟨by decide, by decide⟩, ⟨by decide, by decide, by decide⟩⟩
  intro sv hwf gen₁ gen₂ s A B r₁ r₂ n₁ n₂ t₁ t₂ t₃ t₄ hs hnew h₁ h₂
  have e₁ : effectiveSessionID ⟨s, A⟩ n₁ = s := by simp [effectiveSessionID, hs]
  have e₂ : effectiveSessionID ⟨s, B⟩ n₂ = s := by simp [effectiveSessionID, hs]
  have hH : historyOf sv s = [] := historyOf_of_none hnew
  have hA : buildContextFromHistory (historyOf sv s) ++ A = A := by
    rw [hH]; simp [buildContextFromHistory]
  have first := gen sv hwf gen₁ ⟨s, A⟩ n₁ t₁ t₂ r₁ (by rw [e₁]; simp only [hA]; exact h₁)
  rw [e₁, hH] at first
  have hH₁ := first.2.2.2
  simp only [List.length_nil, List.nil_append, Nat.zero_add] at hH₁
  have hctx := buildContextFromHistory_turn (sprintfID s 0) (sprintfID s 1) A r₁ t₁ t₂
  have second := gen _ (WF_postChat hwf gen₁ (some ⟨s, A⟩) n₁ t₁ t₂) gen₂ ⟨s, B⟩ n₂ t₃ t₄ r₂
    (by rw [e₂, hH₁, hctx]; exact h₂)
  rw [e₂, hH₁, hctx] at second
  refine ⟨?_, second.1, by simpa using second.2.2.2⟩
  have := first.1
  rw [← hH, hA] at this
  exact this

/-- C8. In a well-formed store, when the generation call fails the
`POST /chat` handler answers 500, has appended no assistant message (the
session's history is the prior history followed by the single user
message), and every other id keeps its map entry and its history. -/
theorem postChat_failure (sv : Server) (hwf : sv.WF) (generate : String → Option String)
    (req : ChatRequest) (nano tUser tAssistant : Time)
    (hfail : generate (WithPrompt
      (buildContextFromHistory (historyOf sv (effectiveSessionID req nano)) ++
        req.Message)) = none) :
    (postChat generate sv (some req) nano tUser tAssistant).response =
      some ⟨500, Body.error "AI 回應生成失敗"⟩ ∧
    historyOf (postChat generate sv (some req) nano tUser tAssistant).server
        (effectiveSessionID req nano) =
      historyOf sv (effectiveSessionID req nano) ++
        [⟨sprintfID (effectiveSessionID req nano)
          (historyOf sv (effectiveSessionID req nano)).length, "user", req.Message, tUser⟩] ∧
    (∀ other, other ≠ effectiveSessionID req nano →
      mapGet (postChat generate sv (some req) nano tUser tAssistant).server.chatManager.sessions
          other = mapGet sv.chatManager.sessions other ∧
      historyOf (postChat generate sv (some req) nano tUser tAssistant).server other =
        historyOf sv other) := by
  rw [postChat_some hwf, hfail]
  exact ⟨rfl, historyOf_AddMessage_GetSession hwf _ _ _ _,
    fun other h => AddMessage_GetSession_other hwf h _ _ _⟩

/-- Witness for C8: a failing generation call for session `a` of the sample
store. -/
theorem postChat_failure_witness :
    (postChat (fun _ => none) sampleServer (some ⟨"a", "again"⟩) 0 5 6).response =
      some ⟨500, Body.error "AI 回應生成失敗"⟩ ∧
    historyOf (postChat (fun _ => none) sampleServer (some ⟨"a", "again"⟩) 0 5 6).server "a" =
      [⟨"a_0", "user", "hi", 1⟩, ⟨"a_1", "user", "again", 5⟩] := by
  have h := postChat_failure sampleServer (by decide) (fun _ => none) ⟨"a", "again"⟩ 0 5 6 rfl
  exact ⟨h.1, h.2.1⟩

/-- C9. A request whose body does not bind is answered 400 with the store
untouched and no prompt sent; but a request that binds with an empty
`message` is not rejected: on the empty store, with a generation service
that replies, the handler creates session `s`, appends a user message with
empty content and the assistant reply, sends the empty prompt and answers
200. -/
theorem postChat_missing_message :
    (∀ (generate : String → Option String) (sv : Server) (nano tUser tAssistant : Time),
      postChat generate sv none nano tUser tAssistant =
        { response := some ⟨400, Body.error "無效的請求格式"⟩, prompts := [], server := sv }) ∧
    postChat (fun _ => some "reply") NewChatManager (some ⟨"s", ""⟩) 0 1 2 =
      { response := some ⟨200, Body.chat
          { SessionID := "s", Message := ⟨"s_1", "assistant", "reply", 2⟩ }⟩,
        prompts := [""],
        server :=
          { heap := [{ ID := "s",
                       Messages := [⟨"s_0", "user", "", 1⟩, ⟨"s_1", "assistant", "reply", 2⟩] }],
            chatManager := { sessions := [("s", 0)] } } } :=
  ⟨fun _ _ _ _ _ => rfl, by decide⟩

/-- C10. The `DELETE` handler always answers 200; afterwards the id is
unmapped, every other id is mapped as before, no session object has
changed (so every other id reads the same history), and when the id was
not mapped the store is exactly as before.  A `GET` history for the same
id right after answers 200 with an empty message list, read from a newly
allocated empty session that the read registers under the id. -/
theorem deleteHandler_spec (sv : Server) (sessionID : String) :
    (deleteHandler sv sessionID).1 = ⟨200, Body.message "對話記錄已刪除"⟩ ∧
    mapGet (deleteHandler sv sessionID).2.chatManager.sessions sessionID = none ∧
    (∀ other, other ≠ sessionID →
      mapGet (deleteHandler sv sessionID).2.chatManager.sessions other =
        mapGet sv.chatManager.sessions other ∧
      historyOf (deleteHandler sv sessionID).2 other = historyOf sv other) ∧
    (deleteHandler sv sessionID).2.heap = sv.heap ∧
    (mapGet sv.chatManager.sessions sessionID = none → (deleteHandler sv sessionID).2 = sv) ∧
    (getHistoryHandler (deleteHandler sv sessionID).2 sessionID).1 =
      ⟨200, Body.history sessionID []⟩ ∧
    mapGet (getHistoryHandler (deleteHandler sv sessionID).2 sessionID).2.chatManager.sessions
      sessionID = some sv.heap.length ∧
    (getHistoryHandler (deleteHandler sv sessionID).2 sessionID).2.heap =
      sv.heap ++ [{ ID := sessionID, Messages := [] }] := by
  have hnone : mapGet (deleteHandler sv sessionID).2.chatManager.sessions sessionID = none :=
    mapGet_mapDelete_self _ _
  have hother : ∀ other, other ≠ sessionID →
      mapGet (deleteHandler sv sessionID).2.chatManager.sessions other =
        mapGet sv.chatManager.sessions other :=
    fun other h => mapGet_mapDelete_ne _ h
  refine ⟨rfl, hnone, ?_, rfl, ?_, ?_, ?_, ?_⟩
  · intro other h
    refine ⟨hother other h, ?_⟩
    cases hm : mapGet sv.chatManager.sessions other with
    | none =>
      rw [historyOf_of_none hm, historyOf_of_none (by rw [hother other h]; exact hm)]
    | some p =>
      rw [historyOf_of_some hm, historyOf_of_some (by rw [hother other h]; exact hm)]
      rfl
  · intro h
    simp only [deleteHandler, mapDelete_of_mapGet_none h]
  · have := historyOf_of_none hnone
    simp only [getHistoryHandler]
    exact congrArg (fun h => (⟨200, Body.history sessionID h⟩ : Response)) this
  · simp only [getHistoryHandler, GetSession_of_none hnone]
    exact mapGet_mapSet_self _ _ _
  · simp only [getHistoryHandler, GetSession_of_none hnone]
    rfl

/-- Witness for C10: deleting session `a` of the sample store, then reading
its history. -/
theorem deleteHandler_spec_witness :
    mapGet (deleteHandler sampleServer "a").2.chatManager.sessions "b" = some 1 ∧
    (deleteHandler sampleServer "c").2 = sampleServer ∧
    (getHistoryHandler (deleteHandler sampleServer "a").2 "a").1 =
      ⟨200, Body.history "a" []⟩ :=
  ⟨((deleteHandler_spec sampleServer "a").2.2.1 "b" (by decide)).1,
   (deleteHandler_spec sampleServer "c").2.2.2.2.1 (by decide),
   (deleteHandler_spec sampleServer "a").2.2.2.2.2.1⟩

/-- C11. Resolve-or-create is race-free.  Launch `K` concurrent calls
`GetSession(id)` for an id that is not registered and let a scheduler
interleave their critical sections in any order.  At every point of every
interleaving the server is either as it was or as one sequential
`GetSession(id)` leaves it, so at most one session is ever created; every
call that has returned holds that one session, which is then the session
registered under the id; and once each call has been scheduled twice all
`K` calls have returned it.  More generally, for calls with any ids on any
server, two returned calls for the same id always hold the same session. -/
theorem GetSession_race_free (sv : Server) (id : String)
    (hnew : mapGet sv.chatManager.sessions id = none) (K : Nat) (schedule : List Nat) :
    ((run (launch sv (List.replicate K id)) schedule).server = sv ∨
      (run (launch sv (List.replicate K id)) schedule).server = (GetSession sv id).2) ∧
    ((run (launch sv (List.replicate K id)) schedule).server.heap = sv.heap ∨
      (run (launch sv (List.replicate K id)) schedule).server.heap =
        sv.heap ++ [{ ID := id, Messages := [] }]) ∧
    (∀ call ∈ (run (launch sv (List.replicate K id)) schedule).calls, ∀ p,
      call.phase = Phase.returned p →
        p = (GetSession sv id).1 ∧
        (run (launch sv (List.replicate K id)) schedule).server = (GetSession sv id).2 ∧
        mapGet (run (launch sv (List.replicate K id)) schedule).server.chatManager.sessions id =
          some p) ∧
    ((∀ i, i < K → 2 ≤ schedule.count i) →
      (run (launch sv (List.replicate K id)) schedule).calls =
        List.replicate K ⟨id, Phase.returned (GetSession sv id).1⟩) ∧
    (∀ (sv' : Server) (ids : List String) (schedule' : List Nat) (c₁ c₂ : Call) (p q : Ptr),
      c₁ ∈ (run (launch sv' ids) schedule').calls →
      c₂ ∈ (run (launch sv' ids) schedule').calls →
      c₁.sessionID = c₂.sessionID →
      c₁.phase = Phase.returned p → c₂.phase = Phase.returned q → p = q) := by
  have hinv := OneSession_run hnew schedule (OneSession_launch sv id K)
  refine ⟨?_, ?_, ?_, run_complete hnew K schedule, ?_⟩
  · rcases hinv with h | h
    · exact Or.inl h.1
    · exact Or.inr h.1
  · rcases hinv with h | h
    · left; rw [h.1]
    · right; rw [h.1, GetSession_of_none hnew]
  · intro call hc p hp
    rcases hinv with h | h
    · rcases (h.2 call hc).2 with e | e <;> rw [e] at hp <;> cases hp
    · rcases (h.2 call hc).2 with e | e | e
      · rw [e] at hp; cases hp
      · rw [e] at hp; cases hp
      · rw [e] at hp
        cases hp
        exact ⟨rfl, h.1, by rw [h.1]; exact GetSession_mapGet_self sv id⟩
  · intro sv' ids schedule' c₁ c₂ p q h₁ h₂ hid hp hq
    have hag := Agree_run schedule' (Agree_launch sv' ids)
    have e₁ := hag c₁ h₁ p hp
    have e₂ := hag c₂ h₂ q hq
    rw [hid, e₂] at e₁
    exact (Option.some.inj e₁).symm

/-- Witness for C11: three calls for `"s"` on the empty store, scheduled in
the order 0, 1, 2, 2, 1, 0 (all three miss, then call 2 creates). -/
theorem GetSession_race_free_witness :
    (run (launch NewChatManager (List.replicate 3 "s")) [0, 1, 2, 2, 1, 0]).calls =
      List.replicate 3 ⟨"s", Phase.returned (GetSession NewChatManager "s").1⟩ :=
  (GetSession_race_free NewChatManager "s" (by decide) 3 [0, 1, 2, 2, 1, 0]).2.2.2.1 (by decide)

/-- C12. `loadEnvFile` keeps every variable that had a non-empty value
before loading; but a variable that was set to the empty string is
overwritten: with `KEY` set to the empty string and the file line `KEY=x`,
`KEY` has the value `x` after loading. -/
theorem loadEnvFile_overwrites_empty :
    (∀ (env : Environ) (file : Option (List String)) (k v : String),
      LookupEnv env k = some v → v ≠ "" → LookupEnv (loadEnvFile env file) k = some v) ∧
    LookupEnv [("KEY", "")] "KEY" = some "" ∧
    LookupEnv (loadEnvFile [("KEY", "")] (some ["KEY=x"])) "KEY" = some "x" :=
  ⟨fun env file _ _ h hv => loadEnvFile_frame env file h hv, by decide, by decide⟩

/-- C13. In a well-formed store, in the `POST /chat` handler the history
read right after the user append is the session's prior history followed by
the user message just appended, so it is never empty; the slice expression
`history[:len(history)-1]` is in range and yields exactly the prior
history; the handler therefore does not panic (it writes a response) and
the one prompt it sends is made, by `ai.WithPrompt`, from the context built
from the prior history followed by the message. -/
theorem postChat_slice_in_range (sv : Server) (hwf : sv.WF)
    (generate : String → Option String) (req : ChatRequest) (nano tUser tAssistant : Time) :
    GetHistory (AddMessage (GetSession sv (effectiveSessionID req nano)).2
        (GetSession sv (effectiveSessionID req nano)).1 "user" req.Message tUser).2
        (GetSession sv (effectiveSessionID req nano)).1 =
      historyOf sv (effectiveSessionID req nano) ++
        [⟨sprintfID (effectiveSessionID req nano)
          (historyOf sv (effectiveSessionID req nano)).length, "user", req.Message, tUser⟩] ∧
    GetHistory (AddMessage (GetSession sv (effectiveSessionID req nano)).2
        (GetSession sv (effectiveSessionID req nano)).1 "user" req.Message tUser).2
        (GetSession sv (effectiveSessionID req nano)).1 ≠ [] ∧
    sliceTo
        (GetHistory (AddMessage (GetSession sv (effectiveSessionID req nano)).2
          (GetSession sv (effectiveSessionID req nano)).1 "user" req.Message tUser).2
          (GetSession sv (effectiveSessionID req nano)).1)
        (((GetHistory (AddMessage (GetSession sv (effectiveSessionID req nano)).2
          (GetSession sv (effectiveSessionID req nano)).1 "user" req.Message tUser).2
          (GetSession sv (effectiveSessionID req nano)).1).length : Int) - 1) =
      some (historyOf sv (effectiveSessionID req nano)) ∧
    (postChat generate sv (some req) nano tUser tAssistant).response ≠ none ∧
    (postChat generate sv (some req) nano tUser tAssistant).prompts =
      [WithPrompt (buildContextFromHistory (historyOf sv (effectiveSessionID req nano)) ++
        req.Message)] := by
  have hH : GetHistory (AddMessage (GetSession sv (effectiveSessionID req nano)).2
        (GetSession sv (effectiveSessionID req nano)).1 "user" req.Message tUser).2
        (GetSession sv (effectiveSessionID req nano)).1 =
      historyOf sv (effectiveSessionID req nano) ++
        [⟨sprintfID (effectiveSessionID req nano)
          (historyOf sv (effectiveSessionID req nano)).length, "user", req.Message, tUser⟩] := by
    simp only [GetHistory, GetHistory_eq]
    rw [AddMessage_GetSession_deref hwf]
  refine ⟨hH, ?_, ?_, ?_, ?_⟩
  · rw [hH]; simp
  · rw [hH]; exact sliceTo_append_singleton _ _
  · rw [postChat_some hwf]
    cases generate
      (WithPrompt (buildContextFromHistory (historyOf sv (effectiveSessionID req nano)) ++
        req.Message)) <;>
      simp
  · rw [postChat_some hwf]
    cases generate
      (WithPrompt (buildContextFromHistory (historyOf sv (effectiveSessionID req nano)) ++
        req.Message)) <;>
      rfl

/-- Witness for C13: a request for session `a` of the sample store, which
holds one message. -/
theorem postChat_slice_in_range_witness :
    sliceTo
        (GetHistory (AddMessage (GetSession sampleServer "a").2
          (GetSession sampleServer "a").1 "user" "again" 5).2 (GetSession sampleServer "a").1)
        (((GetHistory (AddMessage (GetSession sampleServer "a").2
          (GetSession sampleServer "a").1 "user" "again" 5).2
          (GetSession sampleServer "a").1).length : Int) - 1) =
      some (historyOf sampleServer "a") ∧
    (postChat (fun _ => some "r") sampleServer (some ⟨"a", "again"⟩) 0 5 6).response ≠ none := by
  have h := postChat_slice_in_range sampleServer (by decide) (fun _ => some "r")
    ⟨"a", "again"⟩ 0 5 6
  exact ⟨h.2.2.1, h.2.2.2.1⟩

end Chat
